import Mathlib

/-!
Verification development for the ASE `Vasp` calculator module (`vasp.py`).

The module is shallowly embedded: Python floats are modelled as exact
rationals (the claims under study concern control flow, permutations and
comparisons, not floating-point rounding), Python dicts as association
lists (first-key-wins lookup, in-place overwrite on insert), and the
mutable calculator object as an explicit `VaspState` record.  File and
subprocess effects are passed in as explicit arguments (file contents as
`List String`, the subprocess exit code as an `Int`).  Fallible Python
code (exceptions) is modelled with `Except PyErr`.
-/

set_option autoImplicit false

/-- Python exception kinds raised by the code paths modelled here. -/
inductive PyErr where
  | valueError
  | nameError
  | indexError
  | keyError
  | typeError
  | readError
  | setupError
  | calculationFailed (name : String) (dir : String) (code : Int)
deriving DecidableEq, Repr

/-- Does `needle` occur as a contiguous block at the head of `hay`? -/
def subAt : List Char → List Char → Bool
  | [], _ => true
  | _ :: _, [] => false
  | c :: cs, d :: ds => c = d && subAt cs ds

/-- Does `needle` occur anywhere in `hay`?  (List form.) -/
def hasSubList (needle : List Char) : List Char → Bool
  | [] => needle.isEmpty
  | d :: ds => subAt needle (d :: ds) || hasSubList needle ds

/-- Python `pat in s` substring containment. -/
def strContains (s pat : String) : Bool :=
  hasSubList pat.toList s.toList

/-- Split a character list at every character satisfying `p`, keeping
empty fields. -/
def splitChars (p : Char → Bool) : List Char → List (List Char)
  | [] => [[]]
  | c :: cs =>
    if p c then [] :: splitChars p cs
    else
      match splitChars p cs with
      | [] => [[c]]
      | f :: rest => (c :: f) :: rest

/-- Python `str.split()` with no separator: split on whitespace runs,
dropping empty fields. -/
def pySplitWs (s : String) : List String :=
  ((splitChars Char.isWhitespace s.toList).map String.mk).filter (fun t => t ≠ "")

/-- Fuel-driven core of `pySplitStr`: split at each non-overlapping,
leftmost occurrence of `pat`, keeping empty fields. -/
def splitOnAuxL (pat : List Char) : Nat → List Char → List (List Char)
  | _, [] => [[]]
  | 0, cs => [cs]
  | n + 1, c :: cs =>
    if subAt pat (c :: cs) then
      [] :: splitOnAuxL pat n (cs.drop (pat.length - 1))
    else
      match splitOnAuxL pat n cs with
      | [] => [[c]]
      | f :: rest => (c :: f) :: rest

/-- Python `str.split(sep)` with a nonempty separator (the only form the
source uses): fields between non-overlapping occurrences of `sep`, empty
fields kept. -/
def pySplitStr (s pat : String) : List String :=
  if pat = "" then [s]
  else (splitOnAuxL pat.toList s.toList.length s.toList).map String.mk

/-- Fuel-driven core of `pyReplace`. -/
def replaceAuxL (pat rep : List Char) : Nat → List Char → List Char
  | _, [] => []
  | 0, cs => cs
  | n + 1, c :: cs =>
    if subAt pat (c :: cs) then rep ++ replaceAuxL pat rep n (cs.drop (pat.length - 1))
    else c :: replaceAuxL pat rep n cs

/-- Python `str.replace(pat, rep)` with a nonempty pattern (the only form
the source uses): replace every non-overlapping, leftmost occurrence. -/
def pyReplace (s pat rep : String) : String :=
  if pat = "" then s
  else String.mk (replaceAuxL pat.toList rep.toList s.toList.length s.toList)

/-- Python `str.strip()` (whitespace at both ends). -/
def chTrim (s : String) : String :=
  String.mk (((s.toList.dropWhile Char.isWhitespace).reverse.dropWhile
    Char.isWhitespace).reverse)

/-- Python `str.lower()` (ASCII case folding suffices here). -/
def chToLower (s : String) : String :=
  String.mk (s.toList.map Char.toLower)

/-- Numeric value of a digit string (most significant first). -/
def digitsVal (ds : List Char) : Nat :=
  ds.foldl (fun n c => 10 * n + (c.toNat - 48)) 0

/-- Strip an optional leading sign, returning the sign as `1` or `-1`. -/
def pySignSplit : List Char → Int × List Char
  | '+' :: t => (1, t)
  | '-' :: t => (-1, t)
  | cs => (1, cs)

/-- Core of Python `float()` on a stripped character list: optional sign,
decimal mantissa (digits, optionally with a fractional part), optional
`e`/`E` exponent.  Floats are modelled as exact rationals. -/
def pyFloatCore (cs : List Char) : Option ℚ :=
  let sc := pySignSplit cs
  let ipr := sc.2.span Char.isDigit
  let fpr := match ipr.2 with
    | '.' :: t => t.span Char.isDigit
    | _ => ([], ipr.2)
  if ipr.1.isEmpty && fpr.1.isEmpty then none
  else
    let mant : ℚ := (digitsVal (ipr.1 ++ fpr.1) : ℚ) / ((10 : ℚ) ^ fpr.1.length)
    let base : ℚ := (sc.1 : ℚ) * mant
    match fpr.2 with
    | [] => some base
    | e :: t =>
      if e = 'e' || e = 'E' then
        let es := pySignSplit t
        let ed := es.1
        let dr := es.2.span Char.isDigit
        if dr.1.isEmpty || !dr.2.isEmpty then none
        else if ed = 1 then some (base * (10 : ℚ) ^ digitsVal dr.1)
        else some (base / (10 : ℚ) ^ digitsVal dr.1)
      else none

/-- Python `float()`: leading/trailing whitespace is ignored; an
unparsable string is `none` (a `ValueError` at call sites). -/
def pyFloat (s : String) : Option ℚ :=
  pyFloatCore (chTrim s).toList

/-- Core of Python `int()` on a stripped character list. -/
def pyIntCore (cs : List Char) : Option Int :=
  let sc := pySignSplit cs
  let dr := sc.2.span Char.isDigit
  if dr.1.isEmpty || !dr.2.isEmpty then none
  else some (sc.1 * (digitsVal dr.1 : Int))

/-- Python `int()` on a string. -/
def pyInt (s : String) : Option Int :=
  pyIntCore (chTrim s).toList

/-- First-occurrence lookup in an association list (Python `d[k]` /
`d.get(k)` on the list-of-pairs model of a dict). -/
def pyLookup {α : Type} (d : List (String × α)) (k : String) : Option α :=
  match d with
  | [] => none
  | kv :: rest => if kv.1 = k then some kv.2 else pyLookup rest k

/-- Does the association list hold key `k`? -/
def containsKey {α : Type} (d : List (String × α)) (k : String) : Bool :=
  d.any (fun kv => kv.1 = k)

/-- Python `d[k] = v` on the association-list model: overwrite in place
when the key exists, append otherwise. -/
def pyDictInsert {α : Type} (d : List (String × α)) (k : String) (v : α) :
    List (String × α) :=
  if containsKey d k then d.map (fun kv => if kv.1 = k then (kv.1, v) else kv)
  else d ++ [(k, v)]

/-- Python `d.update(kvs)`. -/
def pyDictUpdate {α : Type} (d : List (String × α)) (kvs : List (String × α)) :
    List (String × α) :=
  kvs.foldl (fun acc kv => pyDictInsert acc kv.1 kv.2) d

/-- Map a fallible function over a list, failing if any element fails
(the `Option` analogue of a loop of fallible calls). -/
def optMapAll {α β : Type} (f : α → Option β) : List α → Option (List β)
  | [] => some []
  | a :: l =>
    match f a with
    | none => none
    | some b =>
      match optMapAll f l with
      | none => none
      | some bs => some (b :: bs)

/-- Map a fallible (exception-raising) function over a list. -/
def exceptMapAll {ε α β : Type} (f : α → Except ε β) : List α → Except ε (List β)
  | [] => .ok []
  | a :: l =>
    match f a with
    | .error e => .error e
    | .ok b =>
      match exceptMapAll f l with
      | .error e => .error e
      | .ok bs => .ok (b :: bs)

/-- Fold a fallible step over a list, stopping at the first exception
(models a Python `for` loop whose body can raise). -/
def exceptFold {ε σ α : Type} (f : σ → α → Except ε σ) : σ → List α → Except ε σ
  | s, [] => .ok s
  | s, a :: l =>
    match f s a with
    | .error e => .error e
    | .ok s2 => exceptFold f s2 l

/-- NumPy-style single-element indexing: nonnegative indices from the
front, negative indices from the back, out of range is an error. -/
def npIndex {α : Type} (xs : List α) (i : Int) : Option α :=
  if 0 ≤ i then xs[i.toNat]?
  else if 0 ≤ i + xs.length then xs[(i + xs.length).toNat]? else none

/-- NumPy fancy indexing `xs[idx]`: gather the listed indices; any index
out of range is an error (`none`). -/
def npTake {α : Type} (xs : List α) (idx : List Int) : Option (List α) :=
  optMapAll (npIndex xs) idx

/-- Names of the environment variables searched by `make_command`, in
priority order (class attribute `env_commands` of `Vasp`). -/
def env_commands : List String :=
  ["ASE_VASP_COMMAND", "VASP_COMMAND", "VASP_SCRIPT"]

/-- The environment-variable arm of `Vasp.make_command`: scan
`env_commands` in order; the first variable present supplies the command
after `'PREFIX'` is replaced by the calculator's label prefix; a
`VASP_SCRIPT` value is additionally run through the Python interpreter
(`sys.executable`).  No variable set raises `CalculatorSetupError`. -/
def envResolve (pfx : String) (env : List (String × String)) (pyExe : String) :
    Except PyErr String :=
  match pyLookup env "ASE_VASP_COMMAND" with
  | some v => .ok (pyReplace v "PREFIX" pfx)
  | none =>
    match pyLookup env "VASP_COMMAND" with
    | some v => .ok (pyReplace v "PREFIX" pfx)
    | none =>
      match pyLookup env "VASP_SCRIPT" with
      | some v => .ok (pyExe ++ " " ++ pyReplace v "PREFIX" pfx)
      | none => .error .setupError

/-- Embeds `Vasp.make_command`.  `command` is the explicit argument
(`None` modelled as `none`); the source tests Python truthiness
(`if command:`), so an empty string also falls through to the
environment search. -/
def make_command (command : Option String) (pfx : String)
    (env : List (String × String)) (pyExe : String) : Except PyErr String :=
  match command with
  | some c => if c = "" then envResolve pfx env pyExe else .ok c
  | none => envResolve pfx env pyExe

/-- C1 counterexample input: an environment value containing the literal
substring `PREFIX`. -/
def c1Env : List (String × String) := [("ASE_VASP_COMMAND", "run PREFIX std")]

/-- Values held by the categorized VASP input-parameter dicts
(`float_params`, `int_params`, `string_params`, ...). -/
inductive PVal where
  | pint : Int → PVal
  | prat : ℚ → PVal
  | pstr : String → PVal
  | pbool : Bool → PVal
  | plistInt : List Int → PVal
  | plistRat : List ℚ → PVal
  | plistBool : List Bool → PVal
deriving DecidableEq, Repr

/-- Values held by the result mapping `self.results`. -/
inductive RVal where
  | rnum : ℚ → RVal
  | rint : Int → RVal
  | rvec : List ℚ → RVal
  | rmat : List (List ℚ) → RVal
  | rbool : Bool → RVal
  | rnone : RVal
deriving DecidableEq, Repr

/-- An ASE `Atoms` object as far as this module observes it: per-site
chemical symbols and positions, the 3x3 cell matrix and the per-axis
periodic-boundary flags. -/
structure Atoms where
  symbols : List String
  positions : List (ℚ × ℚ × ℚ)
  cell : List (List ℚ)
  pbc : List Bool
deriving DecidableEq, Repr

/-- A keyword-argument value passed to `Vasp.set`: plain strings for the
calculator bookkeeping keywords, an optional structure for `atoms`, and a
`PVal` for VASP input keys. -/
inductive SetArg where
  | sstr : String → SetArg
  | satoms : Option Atoms → SetArg
  | sval : PVal → SetArg
deriving DecidableEq, Repr

/-- One categorized parameter dict (e.g. `float_params`): keys map to an
optional value, `none` modelling Python `None` (unset). -/
abbrev ParamDict := List (String × Option PVal)

/-- The categorized parameter state: the ordered association of the ten
category names (`float_params`, `exp_params`, `string_params`,
`int_params`, `input_params`, `bool_params`, `list_int_params`,
`list_bool_params`, `list_float_params`, `dict_params`, as stored by
`_store_param_state`) to their dicts. -/
abbrev Params := List (String × ParamDict)

/-- The mutable state of one `Vasp` calculator instance, as far as the
claims under study observe it. -/
structure VaspState where
  atomsStored : Option Atoms
  results : List (String × RVal)
  params : Params
  param_state : Params
  genericParams : List (String × SetArg)
  xmlCalc : Option (List (String × RVal))
  srt : List Int
  resort : List Int
  spinpol : Bool
  command : Option String
  directory : String
  labelPfx : String
  txt : String
  version : Option String
  converged : Option Bool
deriving DecidableEq, Repr

/-- Class attribute `Vasp.name`. -/
def vaspName : String := "vasp"

/-- Default tolerance of `Vasp.check_state` (`tol=1e-15`). -/
def tolDefault : ℚ := 1 / 10 ^ 15

/-- Integer-valued parameter lookup (`self.int_params[k]`); a key absent
from the dict or holding a non-integer is treated as unset (in the source
all category dicts always hold all their keys). -/
def getIntParam (p : Params) (k : String) : Option Int :=
  match pyLookup p "int_params" with
  | some d =>
    match pyLookup d k with
    | some (some (.pint n)) => some n
    | _ => none
  | none => none

/-- List-of-float-valued parameter lookup (`self.list_float_params[k]`). -/
def getListParam (p : Params) (k : String) : Option (List ℚ) :=
  match pyLookup p "list_float_params" with
  | some d =>
    match pyLookup d k with
    | some (some (.plistRat l)) => some l
    | _ => none
  | none => none

/-- Are the three coordinates of two positions within `tol` of each
other (absolute difference per coordinate)? -/
def tripleClose (p q : ℚ × ℚ × ℚ) (tol : ℚ) : Bool :=
  decide (|p.1 - q.1| ≤ tol) && decide (|p.2.1 - q.2.1| ≤ tol) &&
    decide (|p.2.2 - q.2.2| ≤ tol)

/-- Per-coordinate closeness of two position lists. -/
def positionsClose (ps qs : List (ℚ × ℚ × ℚ)) (tol : ℚ) : Bool :=
  decide (ps.length = qs.length) &&
    (ps.zip qs).all (fun pq => tripleClose pq.1 pq.2 tol)

/-- Per-entry closeness of two rows. -/
def rowClose (r s : List ℚ) (tol : ℚ) : Bool :=
  decide (r.length = s.length) &&
    (r.zip s).all (fun p => decide (|p.1 - p.2| ≤ tol))

/-- Per-entry closeness of two matrices (cells). -/
def matClose (m n : List (List ℚ)) (tol : ℚ) : Bool :=
  decide (m.length = n.length) &&
    (m.zip n).all (fun p => rowClose p.1 p.2 tol)

/-- Modelled from the spec: the structural half of the change detector
(the base `Calculator.check_state` / `compare_atoms` of the `ase`
library, which is not part of this repository's source).  Position, cell,
species and boundary flags are compared against the last-used structure
within an absolute per-coordinate tolerance; any exceedance flags that
category; no stored structure flags every category. -/
def compare_atoms (stored : Option Atoms) (a : Atoms) (tol : ℚ) : List String :=
  match stored with
  | none => ["positions", "numbers", "cell", "pbc"]
  | some b =>
    (if !positionsClose b.positions a.positions tol then ["positions"] else []) ++
    (if b.symbols ≠ a.symbols then ["numbers"] else []) ++
    (if !matClose b.cell a.cell tol then ["cell"] else []) ++
    (if b.pbc ≠ a.pbc then ["pbc"] else [])

/-- Embeds the helper `compare_dict` of `Vasp.check_state`: `False` as
soon as the key sets differ (symmetric difference nonempty), otherwise
key-by-key value comparison. -/
def compare_dict (d1 d2 : ParamDict) : Bool :=
  (d1.all (fun kv => containsKey d2 kv.1) && d2.all (fun kv => containsKey d1 kv.1)) &&
    d1.all (fun kv => decide (pyLookup d2 kv.1 = some kv.2))

/-- Embeds the parameter loop of `Vasp.check_state`: for each category of
the stored snapshot, compare the current dict against the snapshot dict
and flag the category name on any difference.  (In the source a category
always exists on the instance; an absent one is flagged as changed.) -/
def paramChanges (cur old : Params) : List String :=
  old.filterMap (fun co =>
    if !compare_dict ((pyLookup cur co.1).getD []) co.2 then some co.1 else none)

/-- Embeds `Vasp.check_state`: structural changes (base class) followed by
the changed parameter categories. -/
def check_state (st : VaspState) (atoms : Atoms) (tol : ℚ) : List String :=
  compare_atoms st.atomsStored atoms tol ++ paramChanges st.params st.param_state

/-- Embeds `Vasp.clear_results`: empty the result mapping and drop the
cached XML calculator. -/
def clear_results (st : VaspState) : VaspState :=
  { st with results := [], xmlCalc := none }

/-- Embeds the `atoms` property setter: `None` clears the stored structure
and the results; otherwise results are cleared only when `check_state`
(at its default tolerance) reports a change, and a copy of the assigned
structure is stored. -/
def atomsSet (st : VaspState) (a : Option Atoms) : VaspState :=
  match a with
  | none => clear_results { st with atomsStored := none }
  | some atoms =>
    let st1 := if !(check_state st atoms tolDefault).isEmpty then clear_results st else st
    { st1 with atomsStored := some atoms }

/-- The keywords `Vasp.set` pops and handles itself before delegating the
rest to the VASP input machinery. -/
def specialKeys : List String := ["label", "directory", "txt", "atoms", "command"]

/-- Modelled from the spec: the generic `Calculator.set` of the `ase`
base class (not part of this repository's source).  It records which
keyword values differ from the stored generic parameter dict and updates
that dict; with no keywords it reports no changes. -/
def calcSet (params : List (String × SetArg)) (kwargs : List (String × SetArg)) :
    List (String × SetArg) × List (String × SetArg) :=
  (pyDictUpdate params kwargs,
   kwargs.filter (fun kv => decide (pyLookup params kv.1 ≠ some kv.2)))

/-- Assign value `v` to key `k` in one category dict, provided the
category declares the key (otherwise no effect). -/
def setOneDict (d : ParamDict) (k : String) (v : PVal) : ParamDict :=
  d.map (fun kv => if kv.1 = k then (kv.1, some v) else kv)

/-- Modelled from the spec: `GenerateVaspInput.set` (the external input
generator, not part of this repository's source) routes each recognized
keyword into the category dict that declares it. -/
def setParam (p : Params) (k : String) (v : PVal) : Params :=
  p.map (fun co => (co.1, setOneDict co.2 k v))

/-- Route a whole keyword list into the category dicts; non-`PVal`
arguments (which the input generator would reject) are ignored. -/
def genSetAll (p : Params) (kwargs : List (String × SetArg)) : Params :=
  kwargs.foldl
    (fun q kv =>
      match kv.2 with
      | .sval v => setParam q kv.1 v
      | _ => q) p

/-- Embeds `Vasp.set`: pop and apply `label`, `directory`, `txt`, `atoms`
and `command`; hand the remaining keywords to the generic
`Calculator.set` (clearing results when it reports changes) and, when any
remain, to the VASP input generator — unconditionally clearing the result
mapping in that case. -/
def popLabel (st : VaspState) (kwargs : List (String × SetArg)) : VaspState :=
  match pyLookup kwargs "label" with
  | some (.sstr l) => { st with labelPfx := l }
  | _ => st

def popDir (st : VaspState) (kwargs : List (String × SetArg)) : VaspState :=
  match pyLookup kwargs "directory" with
  | some (.sstr d) => { st with directory := d }
  | _ => st

def popTxt (st : VaspState) (kwargs : List (String × SetArg)) : VaspState :=
  match pyLookup kwargs "txt" with
  | some (.sstr t) => { st with txt := t }
  | _ => st

def popAtoms (st : VaspState) (kwargs : List (String × SetArg)) : VaspState :=
  match pyLookup kwargs "atoms" with
  | some (.satoms a) => atomsSet st a
  | _ => st

def popCommand (st : VaspState) (kwargs : List (String × SetArg)) : VaspState :=
  match pyLookup kwargs "command" with
  | some (.sstr c) => { st with command := some c }
  | _ => st

def vaspSet (st : VaspState) (kwargs : List (String × SetArg)) : VaspState :=
  let st5 := popCommand (popAtoms (popTxt (popDir (popLabel st kwargs) kwargs) kwargs)
    kwargs) kwargs
  let rest := kwargs.filter (fun kv => !specialKeys.contains kv.1)
  let cs := calcSet st5.genericParams rest
  let st6 := { st5 with genericParams := cs.1 }
  let st7 := if !cs.2.isEmpty then clear_results st6 else st6
  if !rest.isEmpty then
    { st7 with params := genSetAll st7.params rest, results := [] }
  else st7

/-- Non-null entries of one category dict, in dict order. -/
def nonNull (d : ParamDict) : List (String × PVal) :=
  d.filterMap (fun kv =>
    match kv.2 with
    | some v => some (kv.1, v)
    | none => none)

/-- Reset every value of a category dict to `None` (the key skeleton of a
freshly constructed calculator). -/
def eraseDict (d : ParamDict) : ParamDict :=
  d.map (fun kv => (kv.1, none))

/-- Reset every category to its `None`-valued skeleton. -/
def eraseParams (p : Params) : Params :=
  p.map (fun co => (co.1, eraseDict co.2))

/-- Embeds the `inputs` dict comprehension of `Vasp.asdict`: all non-null
parameters across the categories flattened into one dict, a later
category winning on a key collision. -/
def flattenInputs (p : Params) : List (String × PVal) :=
  pyDictUpdate [] (p.flatMap (fun co => nonNull co.2))

/-- The dictionary produced by `Vasp.asdict` (keys `ase_version`,
`vasp_version`, `inputs`, `results`, and `atoms` when present). -/
structure Dct where
  aseVersion : String
  vaspVersion : Option String
  inputs : List (String × PVal)
  res : List (String × RVal)
  atoms : Option Atoms
deriving DecidableEq, Repr

/-- The `ase.__version__` string recorded by `asdict` (opaque here). -/
def aseVersionStr : String := "3.22.1"

/-- Embeds `Vasp.asdict`: refresh the parameter snapshot, then export
versions, the flattened non-null inputs, a copy of the result mapping,
and the structure when one is attached (an empty `Atoms` is falsy in
Python and is not exported). -/
def asdict (st : VaspState) : VaspState × Dct :=
  let st1 := { st with param_state := st.params }
  (st1,
   { aseVersion := aseVersionStr
     vaspVersion := st1.version
     inputs := flattenInputs st1.param_state
     res := st1.results
     atoms := match st1.atomsStored with
       | some a => if a.symbols.isEmpty then none else some a
       | none => none })

/-- Embeds `Vasp.fromdict`: restore the version, feed the exported inputs
back through `set` and refresh the snapshot, restore the structure
through the `atoms` setter, and merge the exported results into the
result mapping. -/
def fromdict (st : VaspState) (d : Dct) : VaspState :=
  let st1 := { st with version := d.vaspVersion }
  let st2 := vaspSet st1 (d.inputs.map (fun kv => (kv.1, SetArg.sval kv.2)))
  let st3 := { st2 with param_state := st2.params }
  let st4 := match d.atoms with
    | some a => atomsSet st3 (some a)
    | none => st3
  { st4 with results := pyDictUpdate st4.results d.res }

/-- A freshly constructed calculator sharing `st`'s category skeleton:
no structure, empty results, all parameters unset. -/
def freshOf (st : VaspState) : VaspState :=
  { st with
    atomsStored := none
    results := []
    params := eraseParams st.params
    param_state := eraseParams st.params
    genericParams := []
    xmlCalc := none
    srt := []
    resort := []
    spinpol := false
    version := none
    converged := none }

/-- Species in order of first appearance. -/
def dedupFirst (l : List String) : List String :=
  l.foldl (fun acc s => if acc.contains s then acc else acc ++ [s]) []

/-- Modelled from the spec: `GenerateVaspInput.initialize` (external
input generator, not part of this repository's source) builds the
species-grouped sort permutation — sites grouped contiguously by species
in first-appearance order, stable within a species — and its inverse. -/
def initializeSort (a : Atoms) : List Int × List Int :=
  let syms := a.symbols
  let srt := ((dedupFirst syms).map (fun sp =>
    ((List.range syms.length).filter (fun i => decide (syms[i]? = some sp))).map
      Int.ofNat)).flatten
  let rsrt := (List.range syms.length).map (fun i => (srt.indexOf (Int.ofNat i) : Int))
  (srt, rsrt)

/-- One line of `ase-sort.dat`: exactly two whitespace-separated integer
tokens (`sort, resort = line.split()` followed by `int(...)`). -/
def parseLinePair (line : String) : Option (Int × Int) :=
  match pySplitWs line with
  | [a, b] =>
    match pyInt a, pyInt b with
    | some x, some y => some (x, y)
    | _, _ => none
  | _ => none

/-- The loop body of `Vasp.read_sort`: append the two parsed integers of
one `ase-sort.dat` line to the accumulated sort and resort lists. -/
def sortStep (acc : List Int × List Int) (line : String) :
    Except PyErr (List Int × List Int) :=
  match parseLinePair line with
  | some xy => .ok (acc.1 ++ [xy.1], acc.2 ++ [xy.2])
  | none => .error .valueError

/-- Embeds `Vasp.read_sort`: when `ase-sort.dat` exists (`fileLines` is
`some`), every line is parsed as exactly two integers appended to the
sort and resort lists, with no validation against any structure; a line
with a different token count (or a non-integer token) raises a
`ValueError`.  Only when the file is absent is the sorting recomputed
from the final-structure file (CONTCAR) via `initialize`. -/
def read_sort (fileLines : Option (List String)) (contcar : Atoms) :
    Except PyErr (List Int × List Int) :=
  match fileLines with
  | none => .ok (initializeSort contcar)
  | some ls => exceptFold sortStep ([], []) ls

/-- Embeds `Vasp.strip_warnings`: OUTCAR warning lines (starting with a
bar) are blanked. -/
def strip_warnings (line : String) : String :=
  match line.toList with
  | '|' :: _ => ""
  | _ => line

/-- Embeds `Vasp.read_nbands`: the first line mentioning `NBANDS` (after
warning stripping) supplies the band count, `None` otherwise. -/
def read_nbands : List String → Except PyErr (Option Int)
  | [] => .ok none
  | l :: ls =>
    let l2 := strip_warnings l
    if strContains l2 "NBANDS" then
      match (pySplitWs l2).getLast? with
      | none => .error .indexError
      | some t =>
        match pyInt t with
        | none => .error .valueError
        | some n => .ok (some n)
    else read_nbands ls

/-- Embeds `Vasp.read_dipole`: last `dipolmoment` line wins; the default
is a 1x3 zero array. -/
def read_dipole (lines : List String) : Except PyErr RVal :=
  exceptFold
    (fun acc line =>
      if strContains line "dipolmoment" then
        match optMapAll pyFloat (((pySplitWs line).drop 1).take 3) with
        | some vs => .ok (RVal.rvec vs)
        | none => .error .valueError
      else .ok acc)
    (RVal.rmat [[0, 0, 0]]) lines

/-- Embeds `Vasp._read_magnetic_moment`: the last line containing
`number of electron  ` supplies the total moment (its last token); with
no such line the local variable is unbound and the `return` raises a
`NameError`. -/
def readMagneticMoment (lines : List String) : Except PyErr ℚ :=
  match
    exceptFold
      (fun acc line =>
        if strContains line "number of electron  " then
          match (pySplitWs line).getLast? with
          | none => .error .indexError
          | some t =>
            match pyFloat t with
            | none => .error .valueError
            | some v => .ok (some v)
        else .ok acc)
      (none : Option ℚ) lines
  with
  | .error e => .error e
  | .ok (some v) => .ok v
  | .ok none => .error .nameError

/-- Index of the last line satisfying `p`. -/
def findLastIdx (lines : List String) (p : String → Bool) : Option Nat :=
  ((lines.enum.filter (fun nl => p nl.2)).getLast?).map (fun nl => nl.1)

/-- Token 4 of line `idx`, parsed as a float (one per-atom moment row of
the `magnetization (x)` block). -/
def momentLine (lines : List String) (idx : Nat) : Except PyErr ℚ :=
  match lines[idx]? with
  | none => .error .indexError
  | some l =>
    match (pySplitWs l)[4]? with
    | none => .error .indexError
    | some t =>
      match pyFloat t with
      | none => .error .valueError
      | some v => .ok v

/-- The per-atom magnetic-moments array of `Vasp._read_magnetic_moments`
before the final `resort` indexing: rows `nidx+4 ...` of the last
`magnetization (x)` block, or all zeros when no block is present. -/
def readMagneticMomentsRaw (natoms : Nat) (lines : List String) :
    Except PyErr (List ℚ) :=
  match findLastIdx lines (fun l => strContains l "magnetization (x)") with
  | some n => exceptMapAll (fun m => momentLine lines (n + m + 4)) (List.range natoms)
  | none => .ok (List.replicate natoms (0 : ℚ))

/-- Embeds `Vasp._read_magnetic_moments`: the raw array indexed by
`resort`. -/
def readMagneticMoments (natoms : Nat) (resort : List Int) (lines : List String) :
    Except PyErr (List ℚ) :=
  match readMagneticMomentsRaw natoms lines with
  | .error e => .error e
  | .ok vs =>
    match npTake vs resort with
    | none => .error .indexError
    | some out => .ok out

/-- Embeds `Vasp.read_mag`: in a spin-polarized run the total moment is
always read (see `readMagneticMoment`); per-atom moments are read from
the log only when `lorbit >= 10`, or `lorbit` is unset and `rwigs` is
set — otherwise they degrade to an all-zero array of the site count plus
a warning (the returned flag).  A non-spin-polarized run yields zeros
without a warning. -/
def read_mag (spinpol : Bool) (lorbit : Option Int) (rwigs : Option (List ℚ))
    (natoms : Nat) (resort : List Int) (lines : List String) :
    Except PyErr (ℚ × List ℚ × Bool) :=
  if spinpol then
    match readMagneticMoment lines with
    | .error e => .error e
    | .ok m =>
      if (match lorbit with | some k => decide (10 ≤ k) | none => false) ||
         (lorbit = none && (match rwigs with | some l => !l.isEmpty | none => false)) then
        match readMagneticMoments natoms resort lines with
        | .error e => .error e
        | .ok ms => .ok (m, ms, false)
      else .ok (m, List.replicate natoms (0 : ℚ), true)
  else .ok (0, List.replicate natoms (0 : ℚ), false)

/-- One row of a `TOTAL-FORCE` block: tokens 3..5 of line `idx`, parsed
as floats. -/
def forceLine (lines : List String) (idx : Nat) : Except PyErr (List ℚ) :=
  match lines[idx]? with
  | none => .error .indexError
  | some l =>
    match optMapAll pyFloat (((pySplitWs l).drop 3).take 3) with
    | none => .error .valueError
    | some vs => .ok vs

/-- The force array of `Vasp.read_forces` before the final `resort`
indexing: scanning the log, each `TOTAL-FORCE` marker line at index `n`
reads `natoms` rows starting at `n + 2`; the last block wins; with no
marker the local variable is unbound (`NameError` at the `return`),
modelled by `none`. -/
def read_forcesAux (natoms : Nat) (lines : List String) :
    Except PyErr (Option (List (List ℚ))) :=
  exceptFold
    (fun acc nl =>
      if strContains nl.2 "TOTAL-FORCE" then
        match exceptMapAll (fun i => forceLine lines (nl.1 + 2 + i)) (List.range natoms) with
        | .error e => .error e
        | .ok rows => .ok (some rows)
      else .ok acc)
    none lines.enum

/-- Embeds `Vasp.read_forces` (with `all=False`): the last block's rows,
indexed by `resort`. -/
def read_forces (natoms : Nat) (resort : List Int) (lines : List String) :
    Except PyErr (List (List ℚ)) :=
  match read_forcesAux natoms lines with
  | .error e => .error e
  | .ok none => .error .nameError
  | .ok (some raw) =>
    match npTake raw resort with
    | none => .error .indexError
    | some out => .ok out

/-- Embeds `Vasp.read_version`: the first line containing ` vasp.`
supplies the version (dropping the six-character marker and taking the
first token); no such line yields `None`. -/
def read_version (lines : List String) : Except PyErr (Option String) :=
  match lines.find? (fun l => strContains l " vasp.") with
  | none => .ok none
  | some l =>
    match (pySplitWs (l.drop 6))[0]? with
    | none => .error .indexError
    | some t => .ok (some t)

/-- Embeds `Vasp.read_relaxed`: is the `reached required accuracy` marker
line present? -/
def read_relaxed (lines : List String) : Bool :=
  lines.any (fun l => strContains l "reached required accuracy")

/-- The text repair `read_convergence` applies to the second
energy-change number when it carries no `e` exponent marker (e.g.
` 0.2737684-111`): the part after the last `-` is prefixed with `e` and
`-e` is rewritten to `e-`. -/
def repairExp (b : String) : String :=
  let parts := pySplitStr b "-"
  pyReplace (String.intercalate "-" (parts.dropLast ++ ["e" ++ parts.getLastD ""])) "-e" "e-"

/-- One step of the electronic-convergence scan of
`Vasp.read_convergence`: an `EDIFF  ` line (re)binds the threshold; a
`total energy-change` line without `MIXING` parses the pair `a (b)`
(repairing `b`'s exponent when needed) and sets the convergence flag by
the Python list comparison `[abs(a), abs(b)] < [ediff, ediff]`
(lexicographic).  Exceptions: unparsable floats (`ValueError`), missing
`: `/`(` fields (`IndexError`), an unbound `ediff` (`NameError`). -/
def convStep (s : Option ℚ × Option Bool) (line : String) :
    Except PyErr (Option ℚ × Option Bool) :=
  let s1 : Except PyErr (Option ℚ × Option Bool) :=
    if strContains line "EDIFF  " then
      match (pySplitWs line)[2]? with
      | none => .error .indexError
      | some t =>
        match pyFloat t with
        | none => .error .valueError
        | some e => .ok (some e, s.2)
    else .ok s
  match s1 with
  | .error e => .error e
  | .ok s2 =>
    if strContains line "total energy-change" then
      if strContains line "MIXING" then .ok s2
      else
        match (pySplitStr line ":")[1]? with
        | none => .error .indexError
        | some rest =>
          let ps := pySplitStr rest "("
          match pyFloat (ps.headD "") with
          | none => .error .valueError
          | some a =>
            match ps[1]? with
            | none => .error .indexError
            | some braw =>
              let b0 := braw.dropRight 2
              let b1 := if strContains (chToLower b0) "e" then b0 else repairExp b0
              match pyFloat b1 with
              | none => .error .valueError
              | some b =>
                match s2.1 with
                | none => .error .nameError
                | some ed =>
                  if |a| < ed ∨ (|a| = ed ∧ |b| < ed) then .ok (s2.1, some true)
                  else .ok (s2.1, some false)
    else .ok s2

/-- The electronic half of `Vasp.read_convergence`: the flag left by the
line scan (`None` when no energy-change line was seen). -/
def electronicConvergence (lines : List String) : Except PyErr (Option Bool) :=
  match exceptFold convStep (none, none) lines with
  | .error e => .error e
  | .ok s => .ok s.2

/-- Embeds `Vasp.read_convergence`: the electronic scan runs first (its
exceptions propagate); then, when ionic relaxation was requested
(`ibrion` in 1..3 and `nsw` not 0), the returned flag is set solely from
the `reached required accuracy` marker, overriding the electronic
outcome. -/
def read_convergence (ibrion nsw : Option Int) (lines : List String) :
    Except PyErr (Option Bool) :=
  match electronicConvergence lines with
  | .error e => .error e
  | .ok c =>
    if (ibrion = some 1 ∨ ibrion = some 2 ∨ ibrion = some 3) ∧ nsw ≠ some 0 then
      if read_relaxed lines then .ok (some true) else .ok (some false)
    else .ok c

/-- Entry `(i, j)` of a cell matrix (0 outside the stored shape). -/
def cellGet (c : List (List ℚ)) (i j : Nat) : ℚ :=
  (c.getD i []).getD j 0

/-- Determinant of the 3x3 cell. -/
def det3 (c : List (List ℚ)) : ℚ :=
  cellGet c 0 0 * (cellGet c 1 1 * cellGet c 2 2 - cellGet c 1 2 * cellGet c 2 1) -
  cellGet c 0 1 * (cellGet c 1 0 * cellGet c 2 2 - cellGet c 1 2 * cellGet c 2 0) +
  cellGet c 0 2 * (cellGet c 1 0 * cellGet c 2 1 - cellGet c 1 1 * cellGet c 2 0)

/-- Embeds `check_cell`: `atoms.cell.rank < 3` is equivalent, for a 3x3
matrix, to a vanishing determinant. -/
def cellOk (a : Atoms) : Bool :=
  decide (det3 a.cell ≠ 0)

/-- Embeds `check_pbc`: all periodic-boundary flags must be set. -/
def pbcAll (a : Atoms) : Bool :=
  a.pbc.all (fun b => b)

/-- Embeds the `check_atoms` helper (type, cell, pbc checks, in order);
`none` models passing `atoms=None`, which fails the type check. -/
def checkAtoms (a : Option Atoms) : Option PyErr :=
  match a with
  | none => some .setupError
  | some atoms =>
    if !cellOk atoms then some .setupError
    else if !pbcAll atoms then some .setupError
    else none

/-- Embeds the state effect of `Vasp.write_input` relevant here:
`initialize(atoms)` rebuilds the sort/resort permutation (the input-file
serialization itself is the external collaborator's job). -/
def writeInput (st : VaspState) (a : Atoms) : VaspState :=
  { st with srt := (initializeSort a).1, resort := (initializeSort a).2 }

/-- Embeds `Vasp.update_atoms`: when `ibrion` and `nsw` are both set with
`ibrion > -1` and `nsw > 0`, positions (resorted from CONTCAR) and the
cell are refreshed on the caller's structure before it is stored through
the `atoms` setter. -/
def updateAtoms (st : VaspState) (atoms : Atoms) (contcar : Atoms) :
    Except PyErr VaspState :=
  match getIntParam st.params "ibrion", getIntParam st.params "nsw" with
  | some ib, some ns =>
    if ib > -1 ∧ ns > 0 then
      match npTake contcar.positions st.resort with
      | none => .error .indexError
      | some ps =>
        .ok (atomsSet st (some { atoms with positions := ps, cell := contcar.cell }))
    else .ok (atomsSet st (some atoms))
  | _, _ => .ok (atomsSet st (some atoms))

/-- Embeds `Vasp.read_results`.  `xmlr` is the result mapping of the last
calculator parsed from `vasprun.xml` (`none` when that file is absent or
truncated — a `ReadError`); `lines` is the OUTCAR content.  The XML
forces are re-indexed through `resort` before the result mapping is
updated; the OUTCAR-derived scalars follow; a missing stress entry is
defaulted; finally the parameter snapshot is refreshed.  (The legacy
attribute mirroring of `_set_old_keywords` copies entries already in the
result mapping and is not modelled.) -/
def read_results (st : VaspState) (xmlr : Option (List (String × RVal)))
    (lines : List String) : Except PyErr VaspState :=
  match xmlr with
  | none => .error .readError
  | some xr =>
    match pyLookup xr "forces" with
    | none => .error .keyError
    | some (.rmat raw) =>
      match npTake raw st.resort with
      | none => .error .indexError
      | some sorted =>
        let xr2 := pyDictInsert xr "forces" (.rmat sorted)
        let st1 := { st with xmlCalc := some xr, results := pyDictUpdate st.results xr2 }
        match read_convergence (getIntParam st1.params "ibrion")
            (getIntParam st1.params "nsw") lines with
        | .error e => .error e
        | .ok conv =>
          match read_version lines with
          | .error e => .error e
          | .ok ver =>
            match read_mag st1.spinpol (getIntParam st1.params "lorbit")
                (getListParam st1.params "rwigs")
                ((st1.atomsStored.map (fun a => a.symbols.length)).getD 0)
                st1.resort lines with
            | .error e => .error e
            | .ok mg =>
              match read_dipole lines with
              | .error e => .error e
              | .ok dip =>
                match read_nbands lines with
                | .error e => .error e
                | .ok nb =>
                  let st2 := { st1 with
                    converged := conv
                    version := ver
                    results := pyDictUpdate st1.results
                      [("magmom", .rnum mg.1), ("magmoms", .rvec mg.2.1),
                       ("dipole", dip),
                       ("nbands", match nb with | some n => .rint n | none => .rnone)] }
                  let st3 :=
                    if containsKey st2.results "stress" then st2
                    else { st2 with results := pyDictUpdate st2.results [("stress", .rnone)] }
                  .ok { st3 with param_state := st3.params }
    | some _ => .error .typeError

/-- Embeds `Vasp.calculate`.  External effects are explicit arguments:
`env`/`pyExe` for command resolution, `exitcode` for the subprocess,
`xmlr`/`outcar`/`contcar` for the output artifacts.  The pair returned is
the state at exit together with the exception raised, if any (the state
component is the object state at the moment of the raise). -/
def calculate (st : VaspState) (atoms : Option Atoms)
    (env : List (String × String)) (pyExe : String) (exitcode : Int)
    (xmlr : Option (List (String × RVal))) (outcar : List String)
    (contcar : Atoms) : VaspState × Option PyErr :=
  match checkAtoms atoms with
  | some e => (st, some e)
  | none =>
    match atoms with
    | none => (st, some .setupError)
    | some a =>
      let st1 := atomsSet (clear_results st) (some a)
      match make_command st1.command st1.labelPfx env pyExe with
      | .error e => (st1, some e)
      | .ok _ =>
        let st2 := writeInput st1 a
        if exitcode ≠ 0 then
          (st2, some (.calculationFailed vaspName st2.directory exitcode))
        else
          match updateAtoms st2 a contcar with
          | .error e => (st2, some e)
          | .ok st3 =>
            match read_results st3 xmlr outcar with
            | .error e => (st3, some e)
            | .ok st4 => (st4, none)

/-- A small valid structure used as concrete input. -/
def exAtoms : Atoms :=
  { symbols := ["O", "H"]
    positions := [(0, 0, 0), (1/2, 0, 0)]
    cell := [[1, 0, 0], [0, 1, 0], [0, 0, 1]]
    pbc := [true, true, true] }

/-- `exAtoms` with the first x-coordinate perturbed well beyond the
default tolerance. -/
def exAtomsPerturbed : Atoms :=
  { exAtoms with positions := [(1/100, 0, 0), (1/2, 0, 0)] }

/-- A small categorized parameter state used as concrete input. -/
def exParams : Params :=
  [("float_params", [("encut", some (.prat 400)), ("sigma", none)]),
   ("int_params", [("ibrion", some (.pint 2)), ("nsw", some (.pint 5)), ("lorbit", none)]),
   ("string_params", [("prec", none)]),
   ("list_float_params", [("rwigs", none)])]

/-- A concrete calculator state used as witness input. -/
def exState : VaspState :=
  { atomsStored := some exAtoms
    results := [("energy", .rnum (-10))]
    params := exParams
    param_state := exParams
    genericParams := []
    xmlCalc := none
    srt := [0, 1]
    resort := [0, 1]
    spinpol := false
    command := some "vasp_std"
    directory := "."
    labelPfx := "vasp"
    txt := "vasp.out"
    version := none
    converged := none }

/-- OUTCAR fragment: threshold line, a failing energy-change pair, and
the ionic-relaxation marker (C4 counterexample input). -/
def convLinesIonic : List String :=
  ["   EDIFF  = 0.1E-03   stopping-criterion for ELM\n",
   "  total energy-change (2. order) : 0.5000000E-01  ( 0.4000000E-01)\n",
   "  reached required accuracy - stopping structural energy minimisation\n"]

/-- OUTCAR fragment: threshold line and a passing energy-change pair
whose second number has the malformed glued exponent. -/
def convLinesPassing : List String :=
  ["   EDIFF  = 0.1E-03   stopping-criterion for ELM\n",
   "  total energy-change (2. order) :-0.2141803E-08  ( 0.2737684-111)\n"]

/-- OUTCAR fragment: total-moment line present, no `magnetization (x)`
block (C6 witness input). -/
def magLines : List String :=
  ["  number of electron      10.0000000 magnetization       2.0000000\n"]

/-- OUTCAR fragment containing one TOTAL-FORCE block for two sites. -/
def forceLines : List String :=
  [" vasp.5.4.4.18Apr17 (build) complex\n",
   " POSITION                    TOTAL-FORCE (eV/Angst)\n",
   " -------------------------------------------------\n",
   "  0.0 0.0 0.0    1.0 2.0 3.0\n",
   "  0.5 0.0 0.0    4.0 5.0 6.0\n"]

/-- The result mapping of a parsed `vasprun.xml` used as witness input. -/
def exXml : List (String × RVal) :=
  [("energy", .rnum (-10)), ("forces", .rmat [[1, 2, 3], [4, 5, 6]]),
   ("free_energy", .rnum (-10))]

/-- A well-formed persisted `ase-sort.dat` content. -/
def sortLinesGood : List String := ["0 1\n", "1 0\n"]

/-- A malformed persisted `ase-sort.dat` content (three tokens). -/
def sortLinesBad : List String := ["0 1 2\n"]

/-- The state produced by the concrete successful `read_results` call
used as witness input. -/
def exReadResultsState : VaspState :=
  ((read_results exState (some exXml) forceLines).toOption).getD exState

/-- Plain-valued form of the category-routing fold: assign each keyword
in turn into one category dict. -/
def setVals (d : ParamDict) (kvs : List (String × PVal)) : ParamDict :=
  kvs.foldl (fun d2 kv => setOneDict d2 kv.1 kv.2) d

/-- Two categories declare no common key. -/
def catKeysDistinct (c1 c2 : String × ParamDict) : Prop :=
  ∀ k1 ∈ c1.2.map Prod.fst, ∀ k2 ∈ c2.2.map Prod.fst, k1 ≠ k2

/-- No key is declared by two categories (an invariant of the generated
key lists of the input generator). -/
def CatKeysDisjoint (p : Params) : Prop :=
  p.Pairwise catKeysDistinct

instance : DecidableRel catKeysDistinct := fun c1 c2 => by
  unfold catKeysDistinct; infer_instance

instance : DecidablePred CatKeysDisjoint := fun p => by
  unfold CatKeysDisjoint; exact p.instDecidablePairwise

/-- Well-formedness of the parameter state as Python dicts guarantee it:
category names are unique and so are the keys within each category. -/
def ParamsWF (p : Params) : Prop :=
  (p.map Prod.fst).Nodup ∧ ∀ co ∈ p, ((co.2 : ParamDict).map Prod.fst).Nodup

instance : DecidablePred ParamsWF := fun p => by
  unfold ParamsWF; infer_instance

/-! ## Shared lemmas about the dict and indexing models -/

theorem pyLookup_none_of_not_contains {α : Type} {d : List (String × α)} {k : String}
    (h : containsKey d k = false) : pyLookup d k = none := by
  induction d with
  | nil => rfl
  | cons kv rest ih =>
    simp only [containsKey, List.any_cons, Bool.or_eq_false_iff,
      decide_eq_false_iff_not] at h
    have h2 : containsKey rest k = false := by
      simp only [containsKey]
      exact h.2
    simp [pyLookup, h.1, ih h2]

theorem pyLookup_of_mem_nodup {α : Type} {d : List (String × α)} {k : String} {v : α}
    (hnd : (d.map Prod.fst).Nodup) (hm : (k, v) ∈ d) : pyLookup d k = some v := by
  induction d with
  | nil => cases hm
  | cons kv rest ih =>
    simp only [List.map_cons, List.nodup_cons] at hnd
    rcases List.mem_cons.mp hm with h | h
    · subst h; simp [pyLookup]
    · have hk : kv.1 ≠ k := by
        intro he
        exact hnd.1 (he ▸ (List.mem_map.mpr ⟨(k, v), h, rfl⟩))
      simp [pyLookup, hk, ih hnd.2 h]

/-! ## C1: command resolution -/

/-- C1 counterexample.  The claim states that with no explicit argument
the value of the first set environment variable is used; the source
additionally substitutes the label prefix for the literal substring
`PREFIX`, so for `ASE_VASP_COMMAND = "run PREFIX std"` the command
actually used differs from the stored value. -/
theorem make_command_env_value_rewritten :
    make_command none "vasp" c1Env "/usr/bin/python3" = .ok "run vasp std" ∧
    pyLookup c1Env "ASE_VASP_COMMAND" = some "run PREFIX std" ∧
    "run vasp std" ≠ "run PREFIX std" := by
  refine ⟨rfl, rfl, by decide⟩

/-- C1 (amended): command resolution follows a fixed priority.  A truthy
(non-empty) explicit command argument is returned as is; otherwise the
value of the first set environment variable among `ASE_VASP_COMMAND`,
`VASP_COMMAND`, `VASP_SCRIPT` (in that order) is used after every
occurrence of the substring `PREFIX` is replaced by the label prefix,
with `VASP_SCRIPT`'s (substituted) value additionally prefixed by the
calling Python interpreter's executable; when no argument is given and
none of the variables is set, `CalculatorSetupError` is raised. -/
theorem make_command_resolution (pfx pyExe : String) (env : List (String × String)) :
    (∀ c : String, c ≠ "" → make_command (some c) pfx env pyExe = .ok c) ∧
    (∀ cmd : Option String, cmd = none ∨ cmd = some "" →
      (∀ v, pyLookup env "ASE_VASP_COMMAND" = some v →
        make_command cmd pfx env pyExe = .ok (pyReplace v "PREFIX" pfx)) ∧
      (∀ v, pyLookup env "ASE_VASP_COMMAND" = none →
        pyLookup env "VASP_COMMAND" = some v →
        make_command cmd pfx env pyExe = .ok (pyReplace v "PREFIX" pfx)) ∧
      (∀ v, pyLookup env "ASE_VASP_COMMAND" = none →
        pyLookup env "VASP_COMMAND" = none →
        pyLookup env "VASP_SCRIPT" = some v →
        make_command cmd pfx env pyExe = .ok (pyExe ++ " " ++ pyReplace v "PREFIX" pfx)) ∧
      (pyLookup env "ASE_VASP_COMMAND" = none →
        pyLookup env "VASP_COMMAND" = none →
        pyLookup env "VASP_SCRIPT" = none →
        make_command cmd pfx env pyExe = .error .setupError)) := by
  constructor
  · intro c hc
    simp [make_command, hc]
  · intro cmd hcmd
    have henv : make_command cmd pfx env pyExe = envResolve pfx env pyExe := by
      rcases hcmd with h | h <;> subst h <;> simp [make_command]
    refine ⟨?_, ?_, ?_, ?_⟩
    · intro v hv
      simp [henv, envResolve, hv]
    · intro v h1 hv
      simp [henv, envResolve, h1, hv]
    · intro v h1 h2 hv
      simp [henv, envResolve, h1, h2, hv]
    · intro h1 h2 h3
      simp [henv, envResolve, h1, h2, h3]

/-- C1 witness: a non-empty explicit command is returned unchanged; an
empty environment raises the setup error. -/
theorem make_command_resolution_witness :
    make_command (some "mpirun vasp") "vasp" c1Env "py" = .ok "mpirun vasp" ∧
    make_command none "vasp" [] "py" = .error .setupError := by
  constructor
  · exact (make_command_resolution "vasp" "py" c1Env).1 "mpirun vasp" (by decide)
  · exact ((make_command_resolution "vasp" "py" []).2 none (Or.inl rfl)).2.2.2 rfl rfl rfl

/-! ## C8: read_sort trusts the persisted permutation file -/

theorem sortFold_ok {ls : List String} {prs : List (Int × Int)}
    (h : optMapAll parseLinePair ls = some prs) (acc : List Int × List Int) :
    exceptFold sortStep acc ls = .ok (acc.1 ++ prs.map Prod.fst, acc.2 ++ prs.map Prod.snd) := by
  induction ls generalizing prs acc with
  | nil =>
    simp only [optMapAll, Option.some.injEq] at h
    subst h
    simp [exceptFold]
  | cons l rest ih =>
    simp only [optMapAll] at h
    cases hp : parseLinePair l with
    | none => rw [hp] at h; exact absurd h (by simp)
    | some xy =>
      rw [hp] at h
      cases hr : optMapAll parseLinePair rest with
      | none => rw [hr] at h; exact absurd h (by simp)
      | some prs2 =>
        rw [hr] at h
        simp only [Option.some.injEq] at h
        subst h
        simp [exceptFold, sortStep, hp, ih hr, List.append_assoc]

theorem sortFold_err {ls : List String} {line : String} (hm : line ∈ ls)
    (hbad : (pySplitWs line).length ≠ 2) (acc : List Int × List Int) :
    exceptFold sortStep acc ls = .error .valueError := by
  induction ls generalizing acc with
  | nil => cases hm
  | cons l rest ih =>
    rcases List.mem_cons.mp hm with h | h
    · subst h
      have hnone : parseLinePair line = none := by
        unfold parseLinePair
        rcases hsp : pySplitWs line with _ | ⟨a, _ | ⟨b, _ | ⟨c, rest2⟩⟩⟩ <;> simp_all
      simp [exceptFold, sortStep, hnone]
    · cases hp : parseLinePair l with
      | none => simp [exceptFold, sortStep, hp]
      | some xy => simp [exceptFold, sortStep, hp, ih h]

/-- C8: `read_sort` trusts the persisted permutation file.  (1) With the
file present the result never depends on the structure (no validation);
(2) every line parsing as exactly two integers yields exactly the two
appended columns; (3) any line whose token count differs from two makes
the read raise a parse error; (4) only with the file absent is the
sorting recomputed from the final-structure file. -/
theorem read_sort_trusts_file :
    (∀ (ls : List String) (a1 a2 : Atoms), read_sort (some ls) a1 = read_sort (some ls) a2) ∧
    (∀ (ls : List String) (a : Atoms) (prs : List (Int × Int)),
      optMapAll parseLinePair ls = some prs →
      read_sort (some ls) a = .ok (prs.map Prod.fst, prs.map Prod.snd)) ∧
    (∀ (ls : List String) (a : Atoms) (line : String), line ∈ ls →
      (pySplitWs line).length ≠ 2 → read_sort (some ls) a = .error .valueError) ∧
    (∀ a : Atoms, read_sort none a = .ok (initializeSort a)) := by
  refine ⟨fun ls a1 a2 => rfl, ?_, ?_, fun a => rfl⟩
  · intro ls a prs h
    simpa [read_sort] using sortFold_ok h ([], [])
  · intro ls a line hm hbad
    simpa [read_sort] using sortFold_err hm hbad ([], [])

/-- C8 witness: a two-line well-formed file is parsed into the two
columns; a three-token line raises the parse error. -/
theorem read_sort_trusts_file_witness :
    read_sort (some sortLinesGood) exAtoms = .ok ([0, 1], [1, 0]) ∧
    read_sort (some sortLinesBad) exAtoms = .error .valueError := by
  constructor
  · simpa using read_sort_trusts_file.2.1 sortLinesGood exAtoms [(0, 1), (1, 0)] (by decide)
  · exact read_sort_trusts_file.2.2.1 sortLinesBad exAtoms "0 1 2\n" (by simp [sortLinesBad])
      (by decide)

/-! ## C10: the atoms setter preserves results exactly when nothing changed -/

/-- C10: assigning `None` clears the stored structure and the results;
assigning a structure for which `check_state` (at the default tolerance)
reports no changes keeps the result mapping intact; assigning one with
any reported change clears it; in every non-`None` case the assigned
structure's value is what ends up stored (the source stores a copy, which
under the value semantics of this embedding is equality of content). -/
theorem atoms_setter_frame (st : VaspState) (a : Atoms) :
    ((atomsSet st none).atomsStored = none ∧ (atomsSet st none).results = []) ∧
    (check_state st a tolDefault = [] →
      (atomsSet st (some a)).results = st.results ∧
      (atomsSet st (some a)).atomsStored = some a) ∧
    (check_state st a tolDefault ≠ [] →
      (atomsSet st (some a)).results = [] ∧
      (atomsSet st (some a)).atomsStored = some a) := by
  refine ⟨⟨rfl, rfl⟩, ?_, ?_⟩
  · intro h
    simp [atomsSet, h]
  · intro h
    have hne : (check_state st a tolDefault).isEmpty = false := by
      simpa [List.isEmpty_iff] using h
    simp [atomsSet, hne, clear_results]

/-- C10 witness: assigning the unchanged structure keeps the results;
assigning the perturbed one clears them. -/
theorem atoms_setter_frame_witness :
    (atomsSet exState (some exAtoms)).results = exState.results ∧
    (atomsSet exState (some exAtomsPerturbed)).results = [] := by
  constructor
  · exact ((atoms_setter_frame exState exAtoms).2.1 (by with_unfolding_all rfl)).1
  · exact ((atoms_setter_frame exState exAtomsPerturbed).2.2
      (by with_unfolding_all decide)).1

/-! ## C9: which keywords of set() clear the result mapping -/

theorem popLabel_results (st : VaspState) (kwargs : List (String × SetArg)) :
    (popLabel st kwargs).results = st.results := by
  unfold popLabel; split <;> rfl

theorem popDir_results (st : VaspState) (kwargs : List (String × SetArg)) :
    (popDir st kwargs).results = st.results := by
  unfold popDir; split <;> rfl

theorem popTxt_results (st : VaspState) (kwargs : List (String × SetArg)) :
    (popTxt st kwargs).results = st.results := by
  unfold popTxt; split <;> rfl

theorem popCommand_results (st : VaspState) (kwargs : List (String × SetArg)) :
    (popCommand st kwargs).results = st.results := by
  unfold popCommand; split <;> rfl

theorem popAtoms_of_no_atoms (st : VaspState) (kwargs : List (String × SetArg))
    (h : pyLookup kwargs "atoms" = none) : popAtoms st kwargs = st := by
  unfold popAtoms; rw [h]

theorem vaspSet_special_keeps_results (st : VaspState) (kwargs : List (String × SetArg))
    (hk : ∀ kv ∈ kwargs, kv.1 ∈ (["label", "directory", "txt", "command"] : List String)) :
    (vaspSet st kwargs).results = st.results := by
  have hatoms : pyLookup kwargs "atoms" = none := by
    apply pyLookup_none_of_not_contains
    simp only [containsKey, List.any_eq_false, decide_eq_false_iff_not]
    intro kv hkv
    have h4 := hk kv hkv
    simp only [List.mem_cons, List.not_mem_nil, or_false] at h4
    rcases h4 with h | h | h | h <;> simp [h]
  have hrest : kwargs.filter (fun kv => !specialKeys.contains kv.1) = [] := by
    rw [List.filter_eq_nil_iff]
    intro kv hkv
    have h4 := hk kv hkv
    simp only [List.mem_cons, List.not_mem_nil, or_false] at h4
    rcases h4 with h | h | h | h <;> simp [specialKeys, h]
  simp only [vaspSet, hrest, popAtoms_of_no_atoms _ _ hatoms]
  simp [calcSet, popCommand_results, popTxt_results, popDir_results, popLabel_results]

theorem vaspSet_input_clears_results (st : VaspState) (kwargs : List (String × SetArg))
    (hk : ∃ kv ∈ kwargs, kv.1 ∉ specialKeys) :
    (vaspSet st kwargs).results = [] := by
  obtain ⟨kv, hm, hns⟩ := hk
  have hrest : (kwargs.filter (fun kv => !specialKeys.contains kv.1)).isEmpty = false := by
    rw [List.isEmpty_eq_false_iff_exists_mem]
    exact ⟨kv, List.mem_filter.mpr ⟨hm, by simpa using hns⟩⟩
  simp only [vaspSet]
  rw [hrest]
  rfl

/-- C9: a `set` call passing only `label`, `directory`, `txt` or
`command` keywords leaves the result mapping unchanged, whereas a call
passing any keyword outside the five specially-popped ones (a VASP input
key) ends with the result mapping cleared unconditionally — the clearing
branch tests only that such keywords remain, never their values. -/
theorem set_clears_results_frame (st : VaspState) (kwargs : List (String × SetArg)) :
    ((∀ kv ∈ kwargs, kv.1 ∈ (["label", "directory", "txt", "command"] : List String)) →
      (vaspSet st kwargs).results = st.results) ∧
    ((∃ kv ∈ kwargs, kv.1 ∉ specialKeys) → (vaspSet st kwargs).results = []) :=
  ⟨vaspSet_special_keeps_results st kwargs, vaspSet_input_clears_results st kwargs⟩

/-- C9 witness: a `txt`-only call keeps the results; setting `encut` to
the very value it already holds (`400` in `exState`) still clears them. -/
theorem set_clears_results_frame_witness :
    (vaspSet exState [("txt", SetArg.sstr "out.txt")]).results = exState.results ∧
    pyLookup exParams "float_params" = some [("encut", some (.prat 400)), ("sigma", none)] ∧
    (vaspSet exState [("encut", SetArg.sval (.prat 400))]).results = [] := by
  refine ⟨?_, rfl, ?_⟩
  · exact (set_clears_results_frame exState _).1 (by decide)
  · exact (set_clears_results_frame exState _).2
      ⟨("encut", SetArg.sval (.prat 400)), by simp, by decide⟩

/-! ## C5: check_state is a pure comparison -/

theorem mem_zip_self {α : Type} {l : List α} {p : α × α} (h : p ∈ l.zip l) :
    p.1 = p.2 := by
  induction l with
  | nil => cases h
  | cons a t ih =>
    rcases List.mem_cons.mp h with h | h
    · subst h; rfl
    · exact ih h

theorem tripleClose_refl {tol : ℚ} (p : ℚ × ℚ × ℚ) (h : 0 ≤ tol) :
    tripleClose p p tol = true := by
  simp [tripleClose, h]

theorem positionsClose_refl {tol : ℚ} (ps : List (ℚ × ℚ × ℚ)) (h : 0 ≤ tol) :
    positionsClose ps ps tol = true := by
  simp only [positionsClose, List.all_eq_true, Bool.and_eq_true, decide_eq_true_eq]
  exact ⟨trivial, fun pq hpq => by rw [mem_zip_self hpq]; exact tripleClose_refl _ h⟩

theorem rowClose_refl {tol : ℚ} (r : List ℚ) (h : 0 ≤ tol) :
    rowClose r r tol = true := by
  simp only [rowClose, List.all_eq_true, Bool.and_eq_true, decide_eq_true_eq]
  exact ⟨trivial, fun pq hpq => by simp [mem_zip_self hpq, h]⟩

theorem matClose_refl {tol : ℚ} (m : List (List ℚ)) (h : 0 ≤ tol) :
    matClose m m tol = true := by
  simp only [matClose, List.all_eq_true, Bool.and_eq_true, decide_eq_true_eq]
  exact ⟨trivial, fun pq hpq => by rw [mem_zip_self hpq]; exact rowClose_refl _ h⟩

theorem containsKey_of_mem {α : Type} {d : List (String × α)} {kv : String × α}
    (h : kv ∈ d) : containsKey d kv.1 = true := by
  simp only [containsKey, List.any_eq_true, decide_eq_true_eq]
  exact ⟨kv, h, rfl⟩

theorem compare_dict_refl {d : ParamDict} (hnd : (d.map Prod.fst).Nodup) :
    compare_dict d d = true := by
  simp only [compare_dict, Bool.and_eq_true, List.all_eq_true, decide_eq_true_eq]
  exact ⟨⟨fun kv hkv => containsKey_of_mem hkv, fun kv hkv => containsKey_of_mem hkv⟩,
    fun kv hkv => pyLookup_of_mem_nodup hnd hkv⟩

theorem paramChanges_refl {p : Params} (hwf : ParamsWF p) :
    paramChanges p p = [] := by
  unfold paramChanges
  rw [List.filterMap_eq_nil_iff]
  intro co hco
  rw [pyLookup_of_mem_nodup hwf.1 hco]
  simp [compare_dict_refl (hwf.2 co hco)]

theorem zip_getElem?_some {α β : Type} :
    ∀ (l1 : List α) (l2 : List β) (i : Nat) {a : α} {b : β},
      l1[i]? = some a → l2[i]? = some b → (l1.zip l2)[i]? = some (a, b) := by
  intro l1
  induction l1 with
  | nil => intro l2 i a b h1 h2; simp at h1
  | cons x t ih =>
    intro l2 i a b h1 h2
    cases l2 with
    | nil => simp at h2
    | cons y t2 =>
      cases i with
      | zero => simp_all
      | succ n => simpa using ih t2 n (by simpa using h1) (by simpa using h2)

theorem positionsClose_false_of_far {ps qs : List (ℚ × ℚ × ℚ)} {tol : ℚ} {i : Nat}
    {p q : ℚ × ℚ × ℚ} (hp : ps[i]? = some p) (hq : qs[i]? = some q)
    (hfar : tripleClose p q tol = false) : positionsClose ps qs tol = false := by
  cases hpc : positionsClose ps qs tol with
  | false => rfl
  | true =>
    exfalso
    have hmem : (p, q) ∈ ps.zip qs := by
      have := zip_getElem?_some ps qs i hp hq
      exact List.getElem?_mem this
    simp only [positionsClose, Bool.and_eq_true, List.all_eq_true] at hpc
    have := hpc.2 (p, q) hmem
    rw [hfar] at this
    cases this

/-- C5: `check_state` is an effect-free comparison — in this embedding it
is a pure function of the state, so repeated calls agree by construction.
With the stored structure identical to the probed one and the current
parameters equal to the snapshot it reports no changed category (hence
the empty list on both of two successive calls), while perturbing any
single coordinate of any site beyond the tolerance makes it report at
least the `positions` category. -/
theorem check_state_pure_comparison (st : VaspState) (a a2 : Atoms) (tol : ℚ) :
    (st.atomsStored = some a → st.params = st.param_state → ParamsWF st.params →
      0 ≤ tol → check_state st a tol = [] ∧ check_state st a tol = []) ∧
    (∀ (i : Nat) (p q : ℚ × ℚ × ℚ), st.atomsStored = some a →
      a.positions[i]? = some p → a2.positions[i]? = some q →
      (tol < |p.1 - q.1| ∨ tol < |p.2.1 - q.2.1| ∨ tol < |p.2.2 - q.2.2|) →
      "positions" ∈ check_state st a2 tol) := by
  constructor
  · intro hst hpar hwf htol
    have hca : compare_atoms st.atomsStored a tol = [] := by
      rw [hst]
      simp [compare_atoms, positionsClose_refl _ htol, matClose_refl _ htol]
    have hpc : paramChanges st.params st.param_state = [] := by
      rw [← hpar]
      exact paramChanges_refl hwf
    constructor <;> simp [check_state, hca, hpc]
  · intro i p q hst hp hq hfar
    have hfar2 : tripleClose p q tol = false := by
      rcases hfar with h | h | h <;>
        simp [tripleClose, not_le.mpr h]
    have hfalse : positionsClose a.positions a2.positions tol = false :=
      positionsClose_false_of_far hp hq hfar2
    simp [check_state, compare_atoms, hst, hfalse]

/-- C5 witness: on the concrete state the unchanged structure yields no
changed categories, and a structure whose first x-coordinate moved by
`1/100` yields at least `positions`. -/
theorem check_state_pure_comparison_witness :
    check_state exState exAtoms tolDefault = [] ∧
    "positions" ∈ check_state exState exAtomsPerturbed tolDefault := by
  constructor
  · exact ((check_state_pure_comparison exState exAtoms exAtoms tolDefault).1
      rfl rfl (by decide) (by with_unfolding_all decide)).1
  · exact (check_state_pure_comparison exState exAtoms exAtomsPerturbed tolDefault).2
      0 (0, 0, 0) (1/100, 0, 0) rfl rfl rfl (Or.inl (by with_unfolding_all decide))

/-! ## C6: missing per-atom magnetization detail degrades to zeros + warning -/

/-- C6 counterexample.  The claim says `read_mag` never raises under the
detail-not-requested condition; yet in a spin-polarized read whose log
lacks the `number of electron  ` line, the unconditionally-called
`_read_magnetic_moment` returns an unbound local — a `NameError` — before
the zeros-plus-warning branch is reached. -/
theorem read_mag_missing_total_moment_counterexample :
    read_mag true none none 1 [] ["nothing relevant here"] = .error .nameError := rfl

/-- C6 (amended): for every spin-polarized read where the per-atom
magnetization detail was not requested (`lorbit` unset or below 10, and
no `rwigs` set), provided the total-moment (`number of electron  `) line
of the log parses (yielding `m`), `read_mag` returns that moment with an
all-zero per-atom array of length equal to the site count and the
warning flag, raising no error; when the total-moment line is absent the
call instead fails with a `NameError`. -/
theorem read_mag_soft_default (lorbit : Option Int) (rwigs : Option (List ℚ))
    (natoms : Nat) (resort : List Int) (lines : List String) (m : ℚ)
    (hm : readMagneticMoment lines = .ok m)
    (hlorbit : lorbit = none ∨ ∃ k : Int, lorbit = some k ∧ k < 10)
    (hrwigs : rwigs = none ∨ rwigs = some []) :
    read_mag true lorbit rwigs natoms resort lines =
      .ok (m, List.replicate natoms 0, true) := by
  rcases hlorbit with h | ⟨k, hk, hlt⟩
  · subst h
    rcases hrwigs with h | h <;> subst h <;> simp [read_mag, hm]
  · subst hk
    have hd : decide (10 ≤ k) = false := decide_eq_false (not_le.mpr hlt)
    simp [read_mag, hm, hd]

/-- C6 witness: a log holding only the total-moment line yields the
parsed moment `2`, zero per-atom moments for both sites, and the
warning. -/
theorem read_mag_soft_default_witness :
    read_mag true none none 2 [0, 1] magLines = .ok (2, [0, 0], true) := by
  have h := read_mag_soft_default none none 2 [0, 1] magLines 2
    (by with_unfolding_all rfl) (Or.inl rfl) (Or.inl rfl)
  simpa using h

/-! ## C4: convergence combination -/

/-- C4 counterexample.  The claim says the result is `True` only when
every applicable check passes; on this log the electronic check fails
(the last energy-change pair `0.05 (0.04)` far exceeds the threshold
`1e-4`), ionic relaxation was requested (`ibrion=2`, `nsw=5`), the
`reached required accuracy` marker is present — and `read_convergence`
nevertheless returns `True`, because the ionic branch overrides the
electronic outcome instead of conjoining with it. -/
theorem read_convergence_ionic_override_counterexample :
    electronicConvergence convLinesIonic = .ok (some false) ∧
    read_relaxed convLinesIonic = true ∧
    read_convergence (some 2) (some 5) convLinesIonic = .ok (some true) :=
  ⟨by with_unfolding_all rfl, by with_unfolding_all rfl, by with_unfolding_all rfl⟩

/-- C4 (amended): `read_convergence` first runs the electronic scan —
comparing (by Python's lexicographic list comparison) the magnitudes of
the last logged `total energy-change` pair against the logged `EDIFF`
threshold, repairing a malformed glued exponent in the second number
before parsing, and propagating that scan's exceptions.  When ionic
relaxation was requested (`ibrion` in 1..3 and `nsw` not 0) the returned
flag is then determined solely by the presence of the `reached required
accuracy` marker line, overriding the electronic outcome; otherwise the
electronic outcome is returned. -/
theorem read_convergence_spec (ibrion nsw : Option Int) (lines : List String)
    (c : Option Bool) (h : electronicConvergence lines = .ok c) :
    read_convergence ibrion nsw lines =
      .ok (if (ibrion = some 1 ∨ ibrion = some 2 ∨ ibrion = some 3) ∧ nsw ≠ some 0
        then some (read_relaxed lines) else c) := by
  by_cases hcond : (ibrion = some 1 ∨ ibrion = some 2 ∨ ibrion = some 3) ∧ nsw ≠ some 0
  · cases hr : read_relaxed lines <;> simp [read_convergence, h, hcond, hr]
  · simp [read_convergence, h, hcond]

/-- C4 witness: with no ionic relaxation requested, the electronic
outcome is returned — here `True`, after the glued exponent
` 0.2737684-111` is repaired and parses to a tiny magnitude. -/
theorem read_convergence_spec_witness :
    read_convergence none none convLinesPassing = .ok (some true) := by
  have h := read_convergence_spec none none convLinesPassing (some true)
    (by with_unfolding_all rfl)
  simpa using h

/-! ## C2: non-zero exit raises, with the result mapping empty -/

theorem atomsSet_some_fields (st : VaspState) (a : Atoms) :
    (atomsSet st (some a)).command = st.command ∧
    (atomsSet st (some a)).labelPfx = st.labelPfx ∧
    (atomsSet st (some a)).directory = st.directory := by
  simp only [atomsSet]
  split <;> simp [clear_results]

theorem atomsSet_some_results_empty (st : VaspState) (a : Atoms)
    (h : st.results = []) : (atomsSet st (some a)).results = [] := by
  simp only [atomsSet]
  split <;> simp [clear_results, h]

/-- C2: whenever the external process exits non-zero (and the run was
reached: the structure passed its checks and a command resolved), the
`calculate` embedding raises `CalculationFailed` carrying the program
name `vasp`, the working directory and the exit code — and the result
mapping at that point is empty: it was cleared before the run and
nothing re-populates it on the failing path. -/
theorem calculate_nonzero_exit_raises (st : VaspState) (a : Atoms)
    (env : List (String × String)) (pyExe : String) (ec : Int)
    (xmlr : Option (List (String × RVal))) (outcar : List String) (contcar : Atoms)
    (c : String)
    (hcell : cellOk a = true) (hpbc : pbcAll a = true)
    (hcmd : make_command st.command st.labelPfx env pyExe = .ok c)
    (hec : ec ≠ 0) :
    (calculate st (some a) env pyExe ec xmlr outcar contcar).2 =
      some (.calculationFailed "vasp" st.directory ec) ∧
    (calculate st (some a) env pyExe ec xmlr outcar contcar).1.results = [] := by
  have hchk : checkAtoms (some a) = none := by simp [checkAtoms, hcell, hpbc]
  have hcmd1 : make_command (atomsSet (clear_results st) (some a)).command
      (atomsSet (clear_results st) (some a)).labelPfx env pyExe = .ok c := by
    rw [(atomsSet_some_fields (clear_results st) a).1,
      (atomsSet_some_fields (clear_results st) a).2.1]
    exact hcmd
  have hdir : (atomsSet (clear_results st) (some a)).directory = st.directory :=
    (atomsSet_some_fields (clear_results st) a).2.2
  have hres : (atomsSet (clear_results st) (some a)).results = [] :=
    atomsSet_some_results_empty (clear_results st) a rfl
  simp only [calculate, hchk]
  rw [hcmd1]
  simp [hec, writeInput, vaspName, hdir, hres]

/-- C2 witness: the spec's simulated crash — exit code 137 on the
concrete state — raises `CalculationFailed "vasp" "." 137` with an empty
result mapping. -/
theorem calculate_nonzero_exit_raises_witness :
    (calculate exState (some exAtoms) [] "py" 137 none [] exAtoms).2 =
      some (.calculationFailed "vasp" "." 137) ∧
    (calculate exState (some exAtoms) [] "py" 137 none [] exAtoms).1.results = [] := by
  have h := calculate_nonzero_exit_raises exState exAtoms [] "py" 137 none [] exAtoms
    "vasp_std" (by with_unfolding_all rfl) (by with_unfolding_all rfl)
    (by with_unfolding_all rfl) (by decide)
  simpa using h

/-! ## C3: per-atom arrays pass through resort -/

theorem optMapAll_spec {α β : Type} {f : α → Option β} :
    ∀ {l : List α} {ys : List β}, optMapAll f l = some ys →
      ys.length = l.length ∧ ∀ (i : Nat) (hi : i < l.length), ys[i]? = f (l.get ⟨i, hi⟩) := by
  intro l
  induction l with
  | nil =>
    intro ys h
    simp only [optMapAll, Option.some.injEq] at h
    subst h
    exact ⟨rfl, fun i hi => absurd hi (by simp)⟩
  | cons a t ih =>
    intro ys h
    simp only [optMapAll] at h
    cases hf : f a with
    | none => rw [hf] at h; exact absurd h (by simp)
    | some b =>
      rw [hf] at h
      cases ht : optMapAll f t with
      | none => rw [ht] at h; exact absurd h (by simp)
      | some bs =>
        rw [ht] at h
        simp only [Option.some.injEq] at h
        subst h
        obtain ⟨hlen, hget⟩ := ih ht
        refine ⟨by simp [hlen], fun i hi => ?_⟩
        cases i with
        | zero => simpa using hf.symm
        | succ n =>
          have hn : n < t.length := by simpa using hi
          simpa using hget n hn

theorem npTake_spec {α : Type} {xs : List α} {idx : List Int} {ys : List α}
    (h : npTake xs idx = some ys) :
    ys.length = idx.length ∧
      ∀ (i : Nat) (hi : i < idx.length), ys[i]? = npIndex xs (idx.get ⟨i, hi⟩) :=
  optMapAll_spec h

theorem pyLookup_map_set_ne {α : Type} {d : List (String × α)} {k k2 : String} {v : α}
    (hne : k2 ≠ k) :
    pyLookup (d.map (fun kv => if kv.1 = k then (kv.1, v) else kv)) k2 = pyLookup d k2 := by
  induction d with
  | nil => rfl
  | cons kv rest ih =>
    by_cases hkv : kv.1 = k
    · have hks : ¬k = k2 := fun he => hne he.symm
      simp [pyLookup, hkv, hks, ih]
    · simp only [List.map_cons, if_neg hkv, pyLookup]
      split <;> simp [ih]
  
theorem pyLookup_map_set_self {α : Type} {d : List (String × α)} {k : String} (v : α)
    (hck : containsKey d k = true) :
    pyLookup (d.map (fun kv => if kv.1 = k then (kv.1, v) else kv)) k = some v := by
  induction d with
  | nil => simp [containsKey] at hck
  | cons kv rest ih =>
    by_cases hkv : kv.1 = k
    · simp [pyLookup, hkv]
    · have h2 : containsKey rest k = true := by
        simp only [containsKey, List.any_cons, Bool.or_eq_true, decide_eq_true_eq] at hck
        rcases hck with h | h
        · exact absurd h hkv
        · simpa [containsKey] using h
      simp [pyLookup, hkv, ih h2]

theorem pyLookup_append {α : Type} (d1 d2 : List (String × α)) (k : String) :
    pyLookup (d1 ++ d2) k =
      match pyLookup d1 k with
      | some v => some v
      | none => pyLookup d2 k := by
  induction d1 with
  | nil => rfl
  | cons kv rest ih =>
    by_cases hkv : kv.1 = k <;> simp [pyLookup, hkv, ih]

theorem pyLookup_pyDictInsert_self {α : Type} (d : List (String × α)) (k : String) (v : α) :
    pyLookup (pyDictInsert d k v) k = some v := by
  unfold pyDictInsert
  split
  · next hck => exact pyLookup_map_set_self v hck
  · next hck =>
    rw [pyLookup_append, pyLookup_none_of_not_contains (Bool.not_eq_true _ ▸ hck)]
    simp [pyLookup]

theorem pyLookup_pyDictInsert_ne {α : Type} (d : List (String × α)) {k k2 : String}
    (v : α) (hne : k2 ≠ k) :
    pyLookup (pyDictInsert d k v) k2 = pyLookup d k2 := by
  unfold pyDictInsert
  split
  · exact pyLookup_map_set_ne hne
  · rw [pyLookup_append]
    have hks : ¬k = k2 := fun he => hne he.symm
    cases hl : pyLookup d k2 <;> simp [pyLookup, hks]

theorem pyLookup_pyDictUpdate_not_contains {α : Type}
    {kvs : List (String × α)} {k : String} (h : containsKey kvs k = false) :
    ∀ d, pyLookup (pyDictUpdate d kvs) k = pyLookup d k := by
  induction kvs with
  | nil => intro d; rfl
  | cons kv rest ih =>
    intro d
    simp only [containsKey, List.any_cons, Bool.or_eq_false_iff,
      decide_eq_false_iff_not] at h
    have hr : containsKey rest k = false := by
      simp only [containsKey]; exact h.2
    have step : pyDictUpdate d (kv :: rest) = pyDictUpdate (pyDictInsert d kv.1 kv.2) rest := rfl
    rw [step, ih hr]
    exact pyLookup_pyDictInsert_ne _ _ (fun he => h.1 he.symm)

theorem pyLookup_pyDictUpdate_all_eq {α : Type}
    {kvs : List (String × α)} {k : String} {v : α} :
    ∀ d, containsKey kvs k = true → (∀ kv ∈ kvs, kv.1 = k → kv.2 = v) →
      pyLookup (pyDictUpdate d kvs) k = some v := by
  induction kvs with
  | nil => intro d hc _; simp [containsKey] at hc
  | cons kv rest ih =>
    intro d hc hall
    have step : pyDictUpdate d (kv :: rest) = pyDictUpdate (pyDictInsert d kv.1 kv.2) rest := rfl
    rw [step]
    by_cases hk : kv.1 = k
    · by_cases hcr : containsKey rest k = true
      · exact ih _ hcr (fun kv2 hm hk2 => hall kv2 (List.mem_cons_of_mem _ hm) hk2)
      · have hcr2 : containsKey rest k = false := by
          cases hb : containsKey rest k
          · rfl
          · exact absurd hb hcr
        rw [pyLookup_pyDictUpdate_not_contains hcr2]
        subst hk
        rw [pyLookup_pyDictInsert_self]
        exact congrArg some (hall kv (List.mem_cons_self _ _) rfl)
    · have hcr : containsKey rest k = true := by
        simp only [containsKey, List.any_cons, Bool.or_eq_true, decide_eq_true_eq] at hc
        rcases hc with h | h
        · exact absurd h hk
        · simpa [containsKey] using h
      exact ih _ hcr (fun kv2 hm hk2 => hall kv2 (List.mem_cons_of_mem _ hm) hk2)

theorem containsKey_of_lookup_some {α : Type} {d : List (String × α)} {k : String}
    {v : α} (h : pyLookup d k = some v) : containsKey d k = true := by
  induction d with
  | nil => simp [pyLookup] at h
  | cons kv rest ih =>
    simp only [pyLookup] at h
    by_cases hkv : kv.1 = k
    · simp [containsKey, hkv]
    · rw [if_neg hkv] at h
      simp only [containsKey, List.any_cons, Bool.or_eq_true, decide_eq_true_eq]
      exact Or.inr (by simpa [containsKey] using ih h)

theorem pyDictInsert_all_eq {α : Type} {d : List (String × α)} {k : String} {v : α}
    (hck : containsKey d k = true) :
    ∀ kv ∈ pyDictInsert d k v, kv.1 = k → kv.2 = v := by
  unfold pyDictInsert
  rw [hck]
  intro kv hm hk
  simp only [if_true] at hm
  obtain ⟨kv0, hm0, heq⟩ := List.mem_map.mp hm
  by_cases h0 : kv0.1 = k
  · rw [if_pos h0] at heq; rw [← heq]
  · rw [if_neg h0] at heq; subst heq; exact absurd hk h0

theorem containsKey_pyDictInsert {α : Type} (d : List (String × α)) (k : String) (v : α) :
    containsKey (pyDictInsert d k v) k = true :=
  containsKey_of_lookup_some (pyLookup_pyDictInsert_self d k v)

theorem read_results_forces_resorted {st : VaspState} {xr : List (String × RVal)}
    {lines : List String} {raw : List (List ℚ)} {st2 : VaspState}
    (hok : read_results st (some xr) lines = .ok st2)
    (hxr : pyLookup xr "forces" = some (.rmat raw)) :
    ∃ sorted, npTake raw st.resort = some sorted ∧
      pyLookup st2.results "forces" = some (.rmat sorted) := by
  simp only [read_results, hxr] at hok
  cases hnp : npTake raw st.resort with
  | none => rw [hnp] at hok; exact absurd hok (by simp)
  | some sorted =>
    rw [hnp] at hok
    refine ⟨sorted, rfl, ?_⟩
    have h1 : pyLookup (pyDictUpdate st.results (pyDictInsert xr "forces" (.rmat sorted)))
        "forces" = some (.rmat sorted) :=
      pyLookup_pyDictUpdate_all_eq _ (containsKey_pyDictInsert xr _ _)
        (pyDictInsert_all_eq (containsKey_of_lookup_some hxr))
    split at hok
    · exact absurd hok (by simp)
    · next conv heq =>
      rw [Option.some.injEq] at heq
      subst heq
      split at hok
      · exact absurd hok (by simp)
      · split at hok
        · exact absurd hok (by simp)
        · split at hok
          · exact absurd hok (by simp)
          · split at hok
            · exact absurd hok (by simp)
            · split at hok
              · exact absurd hok (by simp)
              · rw [Except.ok.injEq] at hok
                subst hok
                split
                · simpa using
                    (pyLookup_pyDictUpdate_not_contains (by simp [containsKey]) _).trans h1
                · have h3 := @pyLookup_pyDictUpdate_not_contains RVal
                    [("stress", RVal.rnone)] "forces" (by simp [containsKey])
                  simp only [h3]
                  simpa using
                    (pyLookup_pyDictUpdate_not_contains (by simp [containsKey]) _).trans h1

/-- C3: every per-atom array placed in the result mapping passes through
the `resort` index before storage, element `i` of the stored array being
the raw (external-order) array at index `resort[i]` (NumPy index
semantics): (1) the forces taken from `vasprun.xml` inside
`read_results`; (2) the forces `read_forces` parses from the OUTCAR
text log; (3) the per-atom magnetic moments `_read_magnetic_moments`
parses from OUTCAR.  Raw arrays are external-order, so the stored index
`i` corresponds to caller-order site `i`. -/
theorem per_atom_arrays_resorted :
    (∀ (st : VaspState) (xr : List (String × RVal)) (lines : List String)
        (raw : List (List ℚ)) (st2 : VaspState),
      read_results st (some xr) lines = .ok st2 →
      pyLookup xr "forces" = some (.rmat raw) →
      ∃ sorted, pyLookup st2.results "forces" = some (.rmat sorted) ∧
        sorted.length = st.resort.length ∧
        ∀ (i : Nat) (hi : i < st.resort.length),
          sorted[i]? = npIndex raw (st.resort.get ⟨i, hi⟩)) ∧
    (∀ (natoms : Nat) (resort : List Int) (lines : List String)
        (raw : List (List ℚ)) (out : List (List ℚ)),
      read_forcesAux natoms lines = .ok (some raw) →
      read_forces natoms resort lines = .ok out →
      out.length = resort.length ∧
        ∀ (i : Nat) (hi : i < resort.length),
          out[i]? = npIndex raw (resort.get ⟨i, hi⟩)) ∧
    (∀ (natoms : Nat) (resort : List Int) (lines : List String)
        (raw : List ℚ) (out : List ℚ),
      readMagneticMomentsRaw natoms lines = .ok raw →
      readMagneticMoments natoms resort lines = .ok out →
      out.length = resort.length ∧
        ∀ (i : Nat) (hi : i < resort.length),
          out[i]? = npIndex raw (resort.get ⟨i, hi⟩)) := by
  refine ⟨?_, ?_, ?_⟩
  · intro st xr lines raw st2 hok hxr
    obtain ⟨sorted, hnp, hlook⟩ := read_results_forces_resorted hok hxr
    obtain ⟨hlen, hget⟩ := npTake_spec hnp
    exact ⟨sorted, hlook, hlen, hget⟩
  · intro natoms resort lines raw out hraw hok
    simp only [read_forces, hraw] at hok
    cases hnp : npTake raw resort with
    | none => rw [hnp] at hok; exact absurd hok (by simp)
    | some got =>
      rw [hnp] at hok
      rw [Except.ok.injEq] at hok
      subst hok
      exact npTake_spec hnp
  · intro natoms resort lines raw out hraw hok
    simp only [readMagneticMoments, hraw] at hok
    cases hnp : npTake raw resort with
    | none => rw [hnp] at hok; exact absurd hok (by simp)
    | some got =>
      rw [hnp] at hok
      rw [Except.ok.injEq] at hok
      subst hok
      exact npTake_spec hnp

/-- C3 witness: on the concrete XML mapping and OUTCAR fragment with
`resort = [1, 0]`, the stored arrays are the raw ones re-indexed. -/
theorem per_atom_arrays_resorted_witness :
    (∃ sorted, pyLookup exReadResultsState.results "forces" = some (.rmat sorted) ∧
      sorted.length = exState.resort.length ∧
      ∀ (i : Nat) (hi : i < exState.resort.length),
        sorted[i]? = npIndex [[1, 2, 3], [4, 5, 6]] (exState.resort.get ⟨i, hi⟩)) ∧
    (([[4, 5, 6], [1, 2, 3]] : List (List ℚ)).length = ([1, 0] : List Int).length ∧
      ∀ (i : Nat) (hi : i < ([1, 0] : List Int).length),
        (([[4, 5, 6], [1, 2, 3]] : List (List ℚ))[i]? =
          npIndex [[1, 2, 3], [4, 5, 6]] (([1, 0] : List Int).get ⟨i, hi⟩))) := by
  constructor
  · exact per_atom_arrays_resorted.1 exState exXml forceLines [[1, 2, 3], [4, 5, 6]]
      exReadResultsState (by with_unfolding_all rfl) (by with_unfolding_all rfl)
  · exact per_atom_arrays_resorted.2.1 2 [1, 0] forceLines [[1, 2, 3], [4, 5, 6]]
      [[4, 5, 6], [1, 2, 3]] (by with_unfolding_all rfl) (by with_unfolding_all rfl)

/-! ## C7: asdict / fromdict round-trip -/

theorem containsKey_iff_mem_keys {α : Type} {d : List (String × α)} {k : String} :
    containsKey d k = true ↔ k ∈ d.map Prod.fst := by
  constructor
  · intro h
    simp only [containsKey, List.any_eq_true, decide_eq_true_eq] at h
    obtain ⟨kv, hm, hk⟩ := h
    exact hk ▸ List.mem_map_of_mem _ hm
  · intro h
    obtain ⟨kv, hm, hk⟩ := List.mem_map.mp h
    exact hk ▸ containsKey_of_mem hm

theorem eraseDict_keys (d : ParamDict) : (eraseDict d).map Prod.fst = d.map Prod.fst := by
  simp [eraseDict, List.map_map, Function.comp]

theorem eraseDict_cons (k : String) (v : Option PVal) (rest : ParamDict) :
    eraseDict ((k, v) :: rest) = (k, none) :: eraseDict rest := rfl

theorem nonNull_cons_none (k : String) (rest : ParamDict) :
    nonNull ((k, none) :: rest) = nonNull rest := rfl

theorem nonNull_cons_some (k : String) (w : PVal) (rest : ParamDict) :
    nonNull ((k, some w) :: rest) = (k, w) :: nonNull rest := rfl

theorem setOneDict_absent {d : ParamDict} {k : String} (v : PVal)
    (h : containsKey d k = false) : setOneDict d k v = d := by
  induction d with
  | nil => rfl
  | cons kv rest ih =>
    simp only [containsKey, List.any_cons, Bool.or_eq_false_iff,
      decide_eq_false_iff_not] at h
    simp only [setOneDict, List.map_cons, if_neg h.1]
    have := ih (by simp only [containsKey]; exact h.2)
    simp only [setOneDict] at this
    rw [this]

theorem setVals_absent {d : ParamDict} :
    ∀ {kvs : List (String × PVal)}, (∀ kv ∈ kvs, containsKey d kv.1 = false) →
      setVals d kvs = d := by
  intro kvs
  induction kvs generalizing d with
  | nil => intro _; rfl
  | cons kv rest ih =>
    intro h
    have step : setVals d (kv :: rest) = setVals (setOneDict d kv.1 kv.2) rest := rfl
    rw [step, setOneDict_absent _ (h kv (List.mem_cons_self _ _))]
    exact ih (fun kv2 hm => h kv2 (List.mem_cons_of_mem _ hm))

theorem setVals_cons_out {k0 : String} {x : Option PVal} :
    ∀ {kvs : List (String × PVal)} {d : ParamDict}, (∀ kv ∈ kvs, kv.1 ≠ k0) →
      setVals ((k0, x) :: d) kvs = (k0, x) :: setVals d kvs := by
  intro kvs
  induction kvs with
  | nil => intro d _; rfl
  | cons kv rest ih =>
    intro d h
    have hne : ¬k0 = kv.1 := fun he => h kv (List.mem_cons_self _ _) he.symm
    have step : setVals ((k0, x) :: d) (kv :: rest) =
        setVals (setOneDict ((k0, x) :: d) kv.1 kv.2) rest := rfl
    have hh : setOneDict ((k0, x) :: d) kv.1 kv.2 = (k0, x) :: setOneDict d kv.1 kv.2 := by
      simp [setOneDict, hne]
    rw [step, hh, ih (fun kv2 hm => h kv2 (List.mem_cons_of_mem _ hm))]
    rfl

theorem mem_nonNull {d : ParamDict} {kv : String × PVal} (h : kv ∈ nonNull d) :
    (kv.1, some kv.2) ∈ d := by
  unfold nonNull at h
  obtain ⟨a, ha, hfa⟩ := List.mem_filterMap.mp h
  cases hv : a.2 with
  | none => rw [hv] at hfa; cases hfa
  | some w =>
    rw [hv] at hfa
    simp only [Option.some.injEq] at hfa
    have h1 : a.1 = kv.1 := by rw [← hfa]
    have h2 : w = kv.2 := by rw [← hfa]
    have : a = (kv.1, some kv.2) := by
      rw [← h1, ← h2, ← hv]
    rw [← this]
    exact ha

theorem nonNull_keys_sublist (d : ParamDict) :
    ((nonNull d).map Prod.fst).Sublist (d.map Prod.fst) := by
  induction d with
  | nil => simp [nonNull]
  | cons kv rest ih =>
    cases hv : kv.2 with
    | none =>
      simp only [nonNull, List.filterMap_cons, hv, List.map_cons]
      exact ih.cons _
    | some w =>
      simp only [nonNull, List.filterMap_cons, hv, List.map_cons]
      exact ih.cons₂ _

theorem recoverDict {d : ParamDict} (hnd : (d.map Prod.fst).Nodup) :
    setVals (eraseDict d) (nonNull d) = d := by
  induction d with
  | nil => rfl
  | cons kv rest ih =>
    obtain ⟨k, vo⟩ := kv
    simp only [List.map_cons, List.nodup_cons] at hnd
    have hknr : ∀ kv2 ∈ nonNull rest, kv2.1 ≠ k := by
      intro kv2 hm he
      exact hnd.1 (he ▸ (nonNull_keys_sublist rest).subset (List.mem_map_of_mem _ hm))
    have hckr : containsKey (eraseDict rest) k = false := by
      cases hb : containsKey (eraseDict rest) k
      · rfl
      · exfalso
        have := containsKey_iff_mem_keys.mp hb
        rw [eraseDict_keys] at this
        exact hnd.1 this
    cases vo with
    | none =>
      rw [eraseDict_cons, nonNull_cons_none, setVals_cons_out hknr, ih hnd.2]
    | some w =>
      rw [eraseDict_cons, nonNull_cons_some]
      have step : setVals ((k, none) :: eraseDict rest) ((k, w) :: nonNull rest) =
          setVals (setOneDict ((k, none) :: eraseDict rest) k w) (nonNull rest) := rfl
      have hset : setOneDict ((k, (none : Option PVal)) :: eraseDict rest) k w =
          (k, some w) :: eraseDict rest := by
        simp only [setOneDict, List.map_cons, if_pos rfl]
        exact congrArg (List.cons (k, some w)) (setOneDict_absent w hckr)
      rw [step, hset, setVals_cons_out hknr, ih hnd.2]

theorem genSetAll_map_sval :
    ∀ (kvs : List (String × PVal)) (p : Params),
      genSetAll p (kvs.map (fun kv => (kv.1, SetArg.sval kv.2))) =
        p.map (fun co => (co.1, setVals co.2 kvs)) := by
  intro kvs
  induction kvs with
  | nil =>
    intro p
    simp [genSetAll, setVals]
  | cons kv rest ih =>
    intro p
    have step : genSetAll p ((kv :: rest).map (fun kv => (kv.1, SetArg.sval kv.2))) =
        genSetAll (setParam p kv.1 kv.2) (rest.map (fun kv => (kv.1, SetArg.sval kv.2))) := rfl
    rw [step, ih]
    simp only [setParam, List.map_map]
    rfl

theorem pyDictInsert_absent {α : Type} {d : List (String × α)} {k : String} {v : α}
    (h : containsKey d k = false) : pyDictInsert d k v = d ++ [(k, v)] := by
  simp [pyDictInsert, h]

theorem containsKey_append {α : Type} {d1 d2 : List (String × α)} {k : String} :
    containsKey (d1 ++ d2) k = (containsKey d1 k || containsKey d2 k) := by
  simp [containsKey]

theorem pyDictUpdate_append_fresh {α : Type} :
    ∀ {kvs : List (String × α)} (d : List (String × α)),
      (kvs.map Prod.fst).Nodup → (∀ k ∈ kvs.map Prod.fst, containsKey d k = false) →
      pyDictUpdate d kvs = d ++ kvs := by
  intro kvs
  induction kvs with
  | nil => intro d _ _; simp [pyDictUpdate]
  | cons kv rest ih =>
    intro d hnd habs
    simp only [List.map_cons, List.nodup_cons] at hnd
    have step : pyDictUpdate d (kv :: rest) =
        pyDictUpdate (pyDictInsert d kv.1 kv.2) rest := rfl
    rw [step, pyDictInsert_absent (habs kv.1 (by simp))]
    have habs2 : ∀ k ∈ rest.map Prod.fst, containsKey (d ++ [(kv.1, kv.2)]) k = false := by
      intro k hk
      rw [containsKey_append]
      have h1 : containsKey d k = false := habs k (by simp [hk])
      have h2 : containsKey [(kv.1, kv.2)] k = false := by
        simp only [containsKey, List.any_cons, List.any_nil, Bool.or_false,
          decide_eq_false_iff_not]
        intro he
        exact hnd.1 (he ▸ hk)
      rw [h1, h2]
      rfl
    rw [ih _ hnd.2 habs2]
    simp

theorem nodup_flat_nonNull {p : Params} (hwf : ParamsWF p) (hdisj : CatKeysDisjoint p) :
    ((p.flatMap (fun co => nonNull co.2)).map Prod.fst).Nodup := by
  induction p with
  | nil => simp
  | cons co rest ih =>
    rw [List.flatMap_cons, List.map_append]
    have hwf2 : ParamsWF rest :=
      ⟨(List.nodup_cons.mp hwf.1).2, fun c hm => hwf.2 c (List.mem_cons_of_mem _ hm)⟩
    have hdisj2 : CatKeysDisjoint rest := (List.pairwise_cons.mp hdisj).2
    have hhead : ∀ c ∈ rest, catKeysDistinct co c := (List.pairwise_cons.mp hdisj).1
    refine List.Nodup.append ?_ (ih hwf2 hdisj2) ?_
    · exact (nonNull_keys_sublist co.2).nodup (hwf.2 co (List.mem_cons_self _ _))
    · intro k hk1 hk2
      obtain ⟨kv2, hm2, hkk2⟩ := List.mem_map.mp hk2
      obtain ⟨c2, hc2, hkv2⟩ := List.mem_flatMap.mp hm2
      have hk1m : k ∈ co.2.map Prod.fst := (nonNull_keys_sublist co.2).subset hk1
      have hk2m : k ∈ c2.2.map Prod.fst := by
        rw [← hkk2]
        exact (nonNull_keys_sublist c2.2).subset (List.mem_map_of_mem _ hkv2)
      exact hhead c2 hc2 k hk1m k hk2m rfl

theorem flattenInputs_eq_flat {p : Params} (hwf : ParamsWF p) (hdisj : CatKeysDisjoint p) :
    flattenInputs p = p.flatMap (fun co => nonNull co.2) := by
  unfold flattenInputs
  rw [pyDictUpdate_append_fresh [] (nodup_flat_nonNull hwf hdisj)
    (fun k _ => by simp [containsKey])]
  simp

theorem setVals_append (d : ParamDict) (a b : List (String × PVal)) :
    setVals d (a ++ b) = setVals (setVals d a) b := by
  simp [setVals, List.foldl_append]

theorem setVals_flat_recover_mem {p : Params} (hwf : ParamsWF p)
    (hdisj : CatKeysDisjoint p) {co : String × ParamDict} (hm : co ∈ p) :
    setVals (eraseDict co.2) (p.flatMap (fun c => nonNull c.2)) = co.2 := by
  obtain ⟨l1, l2, hsplit⟩ := List.mem_iff_append.mp hm
  subst hsplit
  rw [List.flatMap_append, List.flatMap_cons, setVals_append, setVals_append]
  obtain ⟨hpair1, hpair2, hmid⟩ := List.pairwise_append.mp hdisj
  have hheadR : ∀ c ∈ l2, catKeysDistinct co c := (List.pairwise_cons.mp hpair2).1
  have hcoL : ∀ c ∈ l1, catKeysDistinct c co :=
    fun c hc => hmid c hc co (List.mem_cons_self _ _)
  have hnd : (co.2.map Prod.fst).Nodup := hwf.2 co (by simp)
  have habsL : ∀ kv ∈ l1.flatMap (fun c => nonNull c.2),
      containsKey (eraseDict co.2) kv.1 = false := by
    intro kv hkv
    obtain ⟨c1, hc1, hkv1⟩ := List.mem_flatMap.mp hkv
    cases hb : containsKey (eraseDict co.2) kv.1
    · rfl
    · exfalso
      have h1 : kv.1 ∈ c1.2.map Prod.fst :=
        (nonNull_keys_sublist c1.2).subset (List.mem_map_of_mem _ hkv1)
      have h2 : kv.1 ∈ co.2.map Prod.fst := by
        have := containsKey_iff_mem_keys.mp hb
        rwa [eraseDict_keys] at this
      exact hcoL c1 hc1 kv.1 h1 kv.1 h2 rfl
  have habsR : ∀ kv ∈ l2.flatMap (fun c => nonNull c.2),
      containsKey co.2 kv.1 = false := by
    intro kv hkv
    obtain ⟨c2, hc2, hkv2⟩ := List.mem_flatMap.mp hkv
    cases hb : containsKey co.2 kv.1
    · rfl
    · exfalso
      have h1 : kv.1 ∈ c2.2.map Prod.fst :=
        (nonNull_keys_sublist c2.2).subset (List.mem_map_of_mem _ hkv2)
      have h2 : kv.1 ∈ co.2.map Prod.fst := containsKey_iff_mem_keys.mp hb
      exact hheadR c2 hc2 kv.1 h2 kv.1 h1 rfl
  rw [setVals_absent habsL, recoverDict hnd, setVals_absent habsR]

theorem genSetAll_flat_recover {p : Params} (hwf : ParamsWF p) (hdisj : CatKeysDisjoint p) :
    genSetAll (eraseParams p)
      ((p.flatMap (fun co => nonNull co.2)).map (fun kv => (kv.1, SetArg.sval kv.2))) = p := by
  rw [genSetAll_map_sval]
  unfold eraseParams
  rw [List.map_map]
  have : ∀ co ∈ p,
      ((fun co => (co.1, setVals co.2 (p.flatMap (fun c => nonNull c.2)))) ∘
        (fun co => (co.1, eraseDict co.2))) co = id co := by
    intro co hm
    simp only [Function.comp_apply, id_eq]
    rw [setVals_flat_recover_mem hwf hdisj hm]
  rw [List.map_eq_map_iff.mpr this, List.map_id]

theorem popLabel_params (st : VaspState) (kwargs : List (String × SetArg)) :
    (popLabel st kwargs).params = st.params := by
  unfold popLabel; split <;> rfl

theorem popDir_params (st : VaspState) (kwargs : List (String × SetArg)) :
    (popDir st kwargs).params = st.params := by
  unfold popDir; split <;> rfl

theorem popTxt_params (st : VaspState) (kwargs : List (String × SetArg)) :
    (popTxt st kwargs).params = st.params := by
  unfold popTxt; split <;> rfl

theorem popCommand_params (st : VaspState) (kwargs : List (String × SetArg)) :
    (popCommand st kwargs).params = st.params := by
  unfold popCommand; split <;> rfl

theorem no_special_key_lookups (kwargs : List (String × SetArg))
    (hns : ∀ kv ∈ kwargs, kv.1 ∉ specialKeys) (k : String) (hk : k ∈ specialKeys) :
    pyLookup kwargs k = none := by
  apply pyLookup_none_of_not_contains
  simp only [containsKey, List.any_eq_false]
  intro kv hkv he
  exact hns kv hkv (by rw [of_decide_eq_true he]; exact hk)

theorem vaspSet_params_nonspecial (st : VaspState) (kwargs : List (String × SetArg))
    (hns : ∀ kv ∈ kwargs, kv.1 ∉ specialKeys) :
    (vaspSet st kwargs).params = genSetAll st.params kwargs := by
  have hatoms : pyLookup kwargs "atoms" = none :=
    no_special_key_lookups kwargs hns "atoms" (by simp [specialKeys])
  have hfil : kwargs.filter (fun kv => !specialKeys.contains kv.1) = kwargs :=
    List.filter_eq_self.mpr (fun kv hm => by simpa using hns kv hm)
  have hp5 : (popCommand (popTxt (popDir (popLabel st kwargs) kwargs) kwargs)
      kwargs).params = st.params := by
    rw [popCommand_params, popTxt_params, popDir_params, popLabel_params]
  simp only [vaspSet, popAtoms_of_no_atoms _ _ hatoms, hfil]
  cases hkw : kwargs with
  | nil =>
    rw [hkw] at hp5
    simp [calcSet, pyDictUpdate, genSetAll, hp5]
  | cons kv rest =>
    rw [← hkw]
    have hne : (kwargs.isEmpty = false) := by rw [hkw]; rfl
    rw [hne]
    simp only [Bool.not_false, if_true]
    split <;> simp [clear_results, hp5]

theorem vaspSet_results_empty_nonspecial (st : VaspState)
    (kwargs : List (String × SetArg)) (h : st.results = [])
    (hns : ∀ kv ∈ kwargs, kv.1 ∉ specialKeys) :
    (vaspSet st kwargs).results = [] := by
  have hatoms : pyLookup kwargs "atoms" = none :=
    no_special_key_lookups kwargs hns "atoms" (by simp [specialKeys])
  have hr5 : (popCommand (popTxt (popDir (popLabel st kwargs) kwargs) kwargs)
      kwargs).results = [] := by
    rw [popCommand_results, popTxt_results, popDir_results, popLabel_results]
    exact h
  simp only [vaspSet, popAtoms_of_no_atoms _ _ hatoms]
  split
  · rfl
  · split <;> simp [clear_results, hr5]

theorem atomsSet_params (st : VaspState) (a : Option Atoms) :
    (atomsSet st a).params = st.params ∧
    (atomsSet st a).param_state = st.param_state := by
  cases a with
  | none => exact ⟨rfl, rfl⟩
  | some atoms =>
    simp only [atomsSet]
    split <;> exact ⟨rfl, rfl⟩

theorem fromdict_fields (st0 : VaspState) (d : Dct) :
    fromdict st0 d =
      (let st2 := vaspSet { st0 with version := d.vaspVersion }
        (d.inputs.map (fun kv => (kv.1, SetArg.sval kv.2)))
       let st4 := match d.atoms with
         | some a => atomsSet { st2 with param_state := st2.params } (some a)
         | none => { st2 with param_state := st2.params }
       { st4 with results := pyDictUpdate st4.results d.res }) := rfl

/-- C7: round-trip of the persisted snapshot.  Exporting a calculator
state through `asdict` (flattening all non-null parameters, later
category winning on key collision — vacuous here since the declared
category keys are disjoint — and copying the result mapping) and
re-importing through `fromdict` into a fresh calculator with the same
category skeleton restores the categorized parameters exactly (hence
equal ignoring null-valued entries), restores the parameter snapshot,
and restores the result mapping. -/
theorem asdict_fromdict_roundtrip (st : VaspState)
    (hwf : ParamsWF st.params) (hdisj : CatKeysDisjoint st.params)
    (hspecial : ∀ co ∈ st.params, ∀ kv ∈ (co.2 : ParamDict), kv.1 ∉ specialKeys)
    (hres : (st.results.map Prod.fst).Nodup) :
    (fromdict (freshOf st) (asdict st).2).params = st.params ∧
    (fromdict (freshOf st) (asdict st).2).param_state = st.params ∧
    (fromdict (freshOf st) (asdict st).2).results = st.results := by
  have hW : ∀ kv ∈ ((asdict st).2.inputs.map (fun kv => (kv.1, SetArg.sval kv.2))),
      kv.1 ∉ specialKeys := by
    intro kv hkv
    obtain ⟨kv0, hm0, heq⟩ := List.mem_map.mp hkv
    have hk1 : kv.1 = kv0.1 := by rw [← heq]
    rw [hk1]
    have hm1 : kv0 ∈ flattenInputs st.params := hm0
    rw [flattenInputs_eq_flat hwf hdisj] at hm1
    obtain ⟨co, hco, hkv0⟩ := List.mem_flatMap.mp hm1
    exact hspecial co hco (kv0.1, some kv0.2) (mem_nonNull hkv0)
  have hWflat : ((asdict st).2.inputs.map (fun kv => (kv.1, SetArg.sval kv.2))) =
      ((st.params.flatMap (fun co => nonNull co.2)).map
        (fun kv => (kv.1, SetArg.sval kv.2))) := by
    rw [show (asdict st).2.inputs = flattenInputs st.params from rfl,
      flattenInputs_eq_flat hwf hdisj]
  have hp2 : (vaspSet { freshOf st with version := (asdict st).2.vaspVersion }
      ((asdict st).2.inputs.map (fun kv => (kv.1, SetArg.sval kv.2)))).params =
      st.params := by
    rw [vaspSet_params_nonspecial _ _ hW,
      show ({ freshOf st with version := (asdict st).2.vaspVersion } :
        VaspState).params = eraseParams st.params from rfl, hWflat]
    exact genSetAll_flat_recover hwf hdisj
  have hr2 : (vaspSet { freshOf st with version := (asdict st).2.vaspVersion }
      ((asdict st).2.inputs.map (fun kv => (kv.1, SetArg.sval kv.2)))).results = [] :=
    vaspSet_results_empty_nonspecial _ _ rfl hW
  have hupd : pyDictUpdate ([] : List (String × RVal)) st.results = st.results := by
    rw [pyDictUpdate_append_fresh [] hres (fun k _ => by simp [containsKey])]
    simp
  have hdres : (asdict st).2.res = st.results := rfl
  rw [fromdict_fields]
  dsimp only
  cases hat : (asdict st).2.atoms with
  | none =>
    refine ⟨by simpa using hp2, by simpa using hp2, ?_⟩
    rw [show ((asdict st).2.res = st.results) from rfl] at hdres ⊢
    rw [hr2]
    exact hupd
  | some a =>
    have hps := atomsSet_params ({ vaspSet { freshOf st with
      version := (asdict st).2.vaspVersion }
      ((asdict st).2.inputs.map (fun kv => (kv.1, SetArg.sval kv.2))) with
      param_state := (vaspSet { freshOf st with version := (asdict st).2.vaspVersion }
        ((asdict st).2.inputs.map (fun kv => (kv.1, SetArg.sval kv.2)))).params })
      (some a)
    have hrs := atomsSet_some_results_empty ({ vaspSet { freshOf st with
      version := (asdict st).2.vaspVersion }
      ((asdict st).2.inputs.map (fun kv => (kv.1, SetArg.sval kv.2))) with
      param_state := (vaspSet { freshOf st with version := (asdict st).2.vaspVersion }
        ((asdict st).2.inputs.map (fun kv => (kv.1, SetArg.sval kv.2)))).params })
      a hr2
    refine ⟨?_, ?_, ?_⟩
    · simpa [hps.1] using hp2
    · simpa [hps.2] using hp2
    · rw [hrs]
      exact hupd

/-- C7 witness: the concrete calculator state (two non-null and several
null parameters across four categories, one stored energy result)
round-trips through `asdict`/`fromdict` into a fresh calculator. -/
theorem asdict_fromdict_roundtrip_witness :
    (fromdict (freshOf exState) (asdict exState).2).params = exState.params ∧
    (fromdict (freshOf exState) (asdict exState).2).param_state = exState.params ∧
    (fromdict (freshOf exState) (asdict exState).2).results = exState.results :=
  asdict_fromdict_roundtrip exState (by decide) (by decide) (by decide) (by decide)
